import Mathlib

/-!
Verification of the isp-billing repository (Go sources) against its
natural-language specification.  Each Go function relevant to the checked
claims is shallowly embedded as an executable Lean definition; machine
integers (uint32 / uint64) are modelled as `Nat` with explicit bounds where
overflow matters, Go `float64` plan-data scalars as `ℚ` (the embedded code
only compares and adds such values at small magnitudes), and fallible Go
returns as `Except` / `Option`.
-/

namespace ISPBilling

/-! ### Traffic-class tree
Embedding of `src/unnamed/part_012` (`IPClassRange`, `TreeNode`,
`BuildTree`, `buildTreeRecursive`, `searchRecursive`, `CheckOverlaps`) and
`src/unnamed/part_005` (`treeFromList`).  IPv4 addresses are `Nat` values
(the Go code holds them as `uint32`). -/

/-- Embeds `IPClassRange` from part_012: a `[start,end,class]` triple.  The Go
field `Class` is a string; `end` being a Lean keyword, the field is named
`stop`. -/
structure IPClassRange where
  start : Nat
  stop : Nat
  cls : String
deriving DecidableEq, Repr

/-- Embeds `TreeNode` from part_012 (a nil pointer is `Tree.nil`). -/
inductive Tree where
  | nil : Tree
  | node (rng : IPClassRange) (left right : Tree) : Tree
deriving DecidableEq, Repr

/-- Embeds `searchRecursive` from part_012: if the ip is inside the node's range
return its class with `found = true`, descend left when `ip < start`,
right otherwise; a nil node yields `("", false)`. -/
def searchRecursive : Tree → Nat → String × Bool
  | .nil, _ => ("", false)
  | .node r l rt, ip =>
    if r.start ≤ ip ∧ ip ≤ r.stop then (r.cls, true)
    else if ip < r.start then searchRecursive l ip
    else searchRecursive rt ip

/-- Embeds `CheckOverlaps` from part_012: scan adjacent pairs of the (sorted)
range list; the first pair with `next.Start <= current.End` is reported as
the error (the Go error message names both spans; the embedding returns
the offending pair itself). -/
def CheckOverlaps : List IPClassRange → Except (IPClassRange × IPClassRange) Unit
  | [] => .ok ()
  | [_] => .ok ()
  | a :: b :: rest =>
    if b.start ≤ a.stop then .error (a, b)
    else CheckOverlaps (b :: rest)

/-- The comparison used by `sort.Slice` in `BuildTree`: ascending `Start`. -/
def startLE (a b : IPClassRange) : Prop := a.start ≤ b.start

instance : DecidableRel startLE := fun a b => inferInstanceAs (Decidable (a.start ≤ b.start))

instance : IsTotal IPClassRange startLE := ⟨fun a b => Nat.le_total a.start b.start⟩

instance : IsTrans IPClassRange startLE := ⟨fun _ _ _ => Nat.le_trans⟩

/-- The sort performed by `BuildTree` (Go `sort.Slice` by ascending
`Start`), modelled as insertion sort. -/
def sortRanges (l : List IPClassRange) : List IPClassRange :=
  l.insertionSort startLE

/-- Embeds `buildTreeRecursive` from part_012: balanced tree over
`ranges[start:end]` with the middle element `ranges[start + (end-start)/2]`
as root.  The out-of-range lookup cannot occur for the in-bounds calls
`BuildTree` makes; it is mapped to `nil`. -/
def buildTreeRecursive (ranges : List IPClassRange) (s e : Nat) : Tree :=
  if _h : s < e then
    let mid := s + (e - s) / 2
    match ranges[mid]? with
    | some r => .node r (buildTreeRecursive ranges s mid) (buildTreeRecursive ranges (mid + 1) e)
    | none => .nil
  else .nil
termination_by e - s
decreasing_by
  · omega
  · omega

/-- Embeds `BuildTree` from part_012: sort by start, reject overlaps, build the
balanced tree.  An empty input yields the empty tree. -/
def BuildTree (ranges : List IPClassRange) : Except (IPClassRange × IPClassRange) Tree :=
  if ranges.isEmpty then .ok .nil
  else
    let sorted := sortRanges ranges
    match CheckOverlaps sorted with
    | .error p => .error p
    | .ok _ => .ok (buildTreeRecursive sorted 0 sorted.length)

/-- Embeds `treeFromList` from part_005 (the Erlang-style builder): consume the
first `n` elements of the list, rooting the subtree at element
`(n-1)/2`; returns the tree and the unconsumed suffix. -/
def treeFromList : List IPClassRange → Nat → Tree × List IPClassRange
  | l, 0 => (.nil, l)
  | l, n + 1 =>
    let firstHalf := n / 2
    let secondHalf := n - firstHalf
    let lt := treeFromList l firstHalf
    match lt.2 with
    | [] => (.nil, lt.2)
    | middle :: rest =>
      let rt := treeFromList rest secondHalf
      (.node middle lt.1 rt.1, rt.2)
termination_by _ n => n
decreasing_by
  · omega
  · omega

/-- Embeds `ClassifyWithDefault` from `src/internal/services/tclass/service.go`,
restricted to the class name it reports: when the tree search misses, the
caller's default class is returned (with `Found = true` in Go). -/
def classifyWithDefault (t : Tree) (ip : Nat) (defaultClass : String) : String :=
  let r := searchRecursive t ip
  if r.2 then r.1 else defaultClass

/-! ### Overlimit arithmetic
Embedding of `calculateOverlimit` from `src/unnamed/part_008`.  The Go
arguments are `uint64`; both subtractions are guarded, so `Nat` models
them exactly. -/

/-- Embeds `calculateOverlimit` from part_008: split incoming `octets` against
the remaining prepaid pool `limit` into the payable part and the new pool. -/
def calculateOverlimit (octets limit : Nat) : Nat × Nat :=
  if octets ≤ limit then (0, limit - octets)
  else (octets - limit, 0)

/-! ### Specification-side view of the tree
Reference definitions used to state the claims about the tree: containment
of an address in a span, separation / disjointness of spans, and the
linear reference lookup the tree search is compared against. -/

/-- Containment test: `start ≤ v ≤ end` for a span. -/
def inRange (r : IPClassRange) (v : Nat) : Bool :=
  decide (r.start ≤ v ∧ v ≤ r.stop)

/-- Separation in list order: the earlier span ends strictly before the
later one starts. -/
def sep (a b : IPClassRange) : Prop := a.stop < b.start

/-- Symmetric disjointness of two spans. -/
def disjointRanges (a b : IPClassRange) : Prop :=
  a.stop < b.start ∨ b.stop < a.start

instance (a b : IPClassRange) : Decidable (sep a b) :=
  inferInstanceAs (Decidable (a.stop < b.start))

instance (a b : IPClassRange) : Decidable (disjointRanges a b) :=
  inferInstanceAs (Decidable (a.stop < b.start ∨ b.stop < a.start))

/-- Linear reference lookup: class of the first span of the list that
contains `v`, with the same `("", false)` miss convention as the tree. -/
def linSearch (l : List IPClassRange) (v : Nat) : String × Bool :=
  match l.find? (fun r => inRange r v) with
  | some r => (r.cls, true)
  | none => ("", false)

/-- Slice form of `buildTreeRecursive`: the Go call on index window
`[s, e)` of the array equals this function on the sublist
`(ranges.drop s).take (e - s)`; the root is the element at relative index
`length / 2`. -/
def buildSlice (l : List IPClassRange) : Tree :=
  match h : l.drop (l.length / 2) with
  | [] => .nil
  | r :: _ =>
    Tree.node r (buildSlice (l.take (l.length / 2)))
      (buildSlice (l.drop (l.length / 2 + 1)))
termination_by l.length
decreasing_by
  all_goals
    have hne : l.drop (l.length / 2) ≠ [] := by rw [h]; exact List.cons_ne_nil _ _
    have := List.length_drop (l.length / 2) l
    have hpos : 0 < l.length := by
      by_contra hz
      exact hne (List.drop_eq_nil_of_le (by omega))
  · simp only [List.length_take]; omega
  · simp only [List.length_drop]; omega

/-- An adjacent overlap in a list, as claimed for `CheckOverlaps`: spans
`a` and `b` occur consecutively and `b.start ≤ a.end`. -/
def adjacentViolation (l : List IPClassRange) (a b : IPClassRange) : Prop :=
  ∃ l1 l2, l = l1 ++ a :: b :: l2 ∧ b.start ≤ a.stop

/-! ### Dynamic plan-data values
Go's `map[string]interface{}` plan data is modelled as an association
list of tagged values; `float64` scalars (every JSON number) are `ℚ`,
which is exact for the comparisons and sums the embedded code performs. -/

/-- Tagged dynamic value: a Go `interface{}` as the billing code
inspects it.  `other` stands for any value that fails all the type
assertions the code performs. -/
inductive GoVal where
  | num (x : ℚ) : GoVal
  | str (s : String) : GoVal
  | list (l : List GoVal) : GoVal
  | other : GoVal

/-- Lookup in a plan-data map (first binding of the key). -/
def lookupPlan (pd : List (String × GoVal)) (k : String) : Option GoVal :=
  (pd.find? (fun p => p.1 == k)).map (·.2)

/-! ### Access intervals
Embedding of `checkAccessIntervals` from `src/unnamed/part_008`
(lines 1107-1167). -/

/-- Result record of the access-interval check (`AccessResult` in Go). -/
structure AccessResult where
  decision : String
  shaper : String
deriving DecidableEq, Repr

/-- Embeds the scan loop of `checkAccessIntervals`: entries failing a type
assertion (`continue` in Go) are skipped; the first entry whose `float64`
boundary strictly exceeds the current seconds-of-day and whose directive
is a string decides the result; an exhausted list rejects. -/
def scanIntervals (defaultShaper : String) (todaySeconds : Nat) :
    List GoVal → AccessResult
  | [] => ⟨"reject", ""⟩
  | iv :: rest =>
    match iv with
    | .list d =>
      if d.length < 2 then scanIntervals defaultShaper todaySeconds rest
      else
        match d[0]? with
        | some (GoVal.num boundary) =>
          if (todaySeconds : ℚ) < boundary then
            match d[1]? with
            | some (GoVal.str access) =>
              let shaper :=
                if 2 < d.length then
                  match d[2]? with
                  | some (GoVal.str s) => s
                  | _ => defaultShaper
                else defaultShaper
              if access = "accept" then ⟨"accept", shaper⟩ else ⟨"reject", ""⟩
            | _ => scanIntervals defaultShaper todaySeconds rest
          else scanIntervals defaultShaper todaySeconds rest
        | _ => scanIntervals defaultShaper todaySeconds rest
    | _ => scanIntervals defaultShaper todaySeconds rest

/-- Embeds `checkAccessIntervals` from part_008: a missing
`ACCESS_INTERVALS` key, a value of another type, or an empty list all
yield accept with the default shaper; otherwise the list is scanned. -/
def checkAccessIntervals (planData : List (String × GoVal))
    (defaultShaper : String) (todaySeconds : Nat) : AccessResult :=
  match lookupPlan planData "ACCESS_INTERVALS" with
  | some (.list intervals) =>
    if intervals.isEmpty then ⟨"accept", defaultShaper⟩
    else scanIntervals defaultShaper todaySeconds intervals
  | _ => ⟨"accept", defaultShaper⟩

/-- Well-formed-and-matching test for one access-interval entry, written
from the amended claim: a list of length ≥ 2 whose first element is a
number strictly greater than the time of day and whose second element is
a string directive. -/
def entryMatches (todaySeconds : Nat) (iv : GoVal) : Bool :=
  match iv with
  | .list d =>
    decide (2 ≤ d.length) &&
      (match d[0]? with
       | some (GoVal.num boundary) => decide ((todaySeconds : ℚ) < boundary)
       | _ => false) &&
      (match d[1]? with
       | some (GoVal.str _) => true
       | _ => false)
  | _ => false

/-- Decision of a matching entry, written from the amended claim: an
`accept` directive accepts with the entry's third-element string shaper
(default shaper when the entry has no string there); any other directive
rejects with an empty shaper. -/
def entryDecision (defaultShaper : String) (iv : GoVal) : AccessResult :=
  match iv with
  | .list d =>
    match d[1]? with
    | some (GoVal.str access) =>
      if access = "accept" then
        ⟨"accept",
          match d[2]? with
          | some (GoVal.str s) => s
          | _ => defaultShaper⟩
      else ⟨"reject", ""⟩
    | _ => ⟨"reject", ""⟩
  | _ => ⟨"reject", ""⟩

/-- Amended-claim version of the access check: accept with the default
shaper when `ACCESS_INTERVALS` is missing, not a list, or empty;
otherwise the decision of the first matching entry, or reject when no
entry matches. -/
def checkAccessIntervalsSpec (planData : List (String × GoVal))
    (defaultShaper : String) (todaySeconds : Nat) : AccessResult :=
  match lookupPlan planData "ACCESS_INTERVALS" with
  | some (.list intervals) =>
    if intervals.isEmpty then ⟨"accept", defaultShaper⟩
    else
      match intervals.find? (entryMatches todaySeconds) with
      | some iv => entryDecision defaultShaper iv
      | none => ⟨"reject", ""⟩
  | _ => ⟨"accept", defaultShaper⟩

/-! ### NetFlow dispatcher
Embedding of `Service.HandleNetFlow` and its helpers from
`src/unnamed/part_009` together with `IPTrafficSession.UpdateTrafficByClass`
and `UpdateTraffic` from `src/unnamed/part_010`.  IP addresses arrive in
the handler already parsed, so they are modelled as `uint32` values
(`Nat`); the in-memory session map plus the Redis by-IP index is modelled
as a list of sessions looked up by IP. -/

/-- Embeds the RFC 1918 test of Go's `net.IP.IsPrivate` for IPv4:
10.0.0.0/8, 172.16.0.0/12 or 192.168.0.0/16. -/
def isPrivateIPv4 (ip : Nat) : Bool :=
  (ip / 2 ^ 24 == 10) || (ip / 2 ^ 20 == 2753) || (ip / 2 ^ 16 == 49320)

/-- Embeds `Service.classifyTraffic` from part_009 (line 908): a private
address is `"local"`, everything else `"internet"` (the `"default"`
branch for an unparsable string cannot fire for an already-parsed
address). -/
def classifyTrafficNF (ip : Nat) : String :=
  if isPrivateIPv4 ip then "local" else "internet"

/-- Embeds `TrafficClassDetail` (per-class counters of a session). -/
structure TrafficClassDetail where
  cls : String
  inOctets : Nat
  inPackets : Nat
  outOctets : Nat
  outPackets : Nat
  amount : ℚ
deriving Repr

/-- Embeds the fields of `IPTrafficSession` that `HandleNetFlow`
touches. -/
structure NFSession where
  uuid : String
  ip : Nat
  active : Bool
  planData : List (String × GoVal)
  inOctets : Nat
  outOctets : Nat
  inPackets : Nat
  outPackets : Nat
  amount : ℚ
  details : List TrafficClassDetail

/-- Embeds `UpdateTraffic` from part_010: add the octets and packets to
the total counters of the matching direction. -/
def updateTraffic (s : NFSession) (direction : String) (octets packets : Nat) : NFSession :=
  if direction = "in" then
    { s with inOctets := s.inOctets + octets, inPackets := s.inPackets + packets }
  else if direction = "out" then
    { s with outOctets := s.outOctets + octets, outPackets := s.outPackets + packets }
  else s

/-- Embeds the per-class update of one `TrafficClassDetail`. -/
def bumpDetail (d : TrafficClassDetail) (direction : String) (octets packets : Nat)
    (amount : ℚ) : TrafficClassDetail :=
  let d' :=
    if direction = "in" then
      { d with inOctets := d.inOctets + octets, inPackets := d.inPackets + packets }
    else if direction = "out" then
      { d with outOctets := d.outOctets + octets, outPackets := d.outPackets + packets }
    else d
  { d' with amount := d'.amount + amount }

/-- Embeds `UpdateTrafficByClass` from part_010: create-or-update the
per-class detail, add the amount to the session total, then update the
total traffic counters. -/
def updateTrafficByClass (s : NFSession) (cls direction : String)
    (octets packets : Nat) (amount : ℚ) : NFSession :=
  let s' :=
    if s.details.any (fun d => d.cls == cls) then
      { s with details :=
          s.details.map fun d =>
            if d.cls == cls then bumpDetail d direction octets packets amount else d }
    else
      { s with details :=
          s.details ++ [bumpDetail ⟨cls, 0, 0, 0, 0, 0⟩ direction octets packets amount] }
  updateTraffic { s' with amount := s'.amount + amount } direction octets packets

/-- Embeds `performAccounting` from part_009 (line 891): amount is
`octets / 1024 / 1024 * cost_per_mb` with `cost_per_mb` read from plan
data (default 0.01); plan data is returned unchanged. -/
def performAccounting (s : NFSession) (octets : Nat) : ℚ × List (String × GoVal) :=
  let costPerMB : ℚ :=
    match lookupPlan s.planData "cost_per_mb" with
    | some (GoVal.num c) => c
    | _ => 1 / 100
  ((octets : ℚ) / 1024 / 1024 * costPerMB, s.planData)

/-- Embeds `findSessionByIP` from part_009 (line 612): the Redis by-IP
index followed by the `IsActive` filter, modelled as the first session
with that framed IP that is active. -/
def findSessionByIP (sessions : List NFSession) (ip : Nat) : Option NFSession :=
  sessions.find? (fun s => s.ip == ip && s.active)

/-- Embeds `Service.HandleNetFlow` from part_009 (lines 373-426).  The
second component records what the handler passed on: the traffic class
given to accounting and the resulting amount (`none` when the flow was
dropped because no session owns the subscriber-side IP). -/
def handleNetFlow (sessions : List NFSession) (direction : String)
    (srcIP dstIP : Nat) (octets packets : Nat) :
    List NFSession × Option (String × ℚ) :=
  let targetIP := if direction = "in" then dstIP else srcIP
  match findSessionByIP sessions targetIP with
  | none => (sessions, none)
  | some sess =>
    let cls := classifyTrafficNF targetIP
    let acct := performAccounting sess octets
    let sess' := { updateTrafficByClass sess cls direction octets packets acct.1 with
                     planData := acct.2 }
    (sessions.map (fun t => if t.uuid == sess.uuid then sess' else t), some (cls, acct.1))

/-! ### IP-pool CIDR expansion
Embedding of `Service.parseCIDR` from
`src/internal/services/ippool/service.go` (lines 544-564), at the level
of the `uint32` address and mask length that `net.ParseCIDR` produces.
The Go enumeration loop starts at the masked network address and
increments while the address stays inside the network, which for a mask
of length `1 ≤ m ≤ 32` visits exactly the `2^(32-m)` addresses of the
block in ascending order. -/

/-- Ascending enumeration of `count` addresses starting at `cur` (the
unrolled `for ... incIP` loop of `parseCIDR`). -/
def enumFrom (cur : Nat) : Nat → List Nat
  | 0 => []
  | n + 1 => cur :: enumFrom (cur + 1) n

/-- Network (base) address of `ip/m`: the masked address `ip & maskbits(m)`. -/
def cidrBase (ip m : Nat) : Nat := ip / 2 ^ (32 - m) * 2 ^ (32 - m)

/-- Broadcast (last) address of `ip/m`. -/
def cidrLast (ip m : Nat) : Nat := cidrBase ip m + 2 ^ (32 - m) - 1

/-- Embeds `Service.parseCIDR` from the ippool service: enumerate the
whole block, then — only when the mask length is at least 24 and the
block has more than two addresses — strip the first (network) and last
(broadcast) address. -/
def parseCIDRIps (ip m : Nat) : List Nat :=
  let ips := enumFrom (cidrBase ip m) (2 ^ (32 - m))
  if 24 ≤ m ∧ 2 < ips.length then (ips.drop 1).dropLast else ips

/-! ### IP-pool release
Embedding of `Service.Release` from
`src/internal/services/ippool/service.go` (lines 329-374) and
`IPPoolEntry.ReleaseIP` from `src/internal/models/ippool.go`.  The Redis
keyspace `ippool:<ip> -> entry` is modelled as a list of entries looked
up by IP, and the per-pool `used` hash as an association list of
counters; Redis I/O failures are outside the model, so the function is
total and both Go return paths are `nil` (success). -/

/-- Embeds `IPPoolEntry` from `internal/models/ippool.go`. -/
structure IPPoolEntry where
  ip : Nat
  pool : String
  expiresAt : Int
deriving DecidableEq, Repr

/-- State of the pool store: entries plus the per-pool `used` counters. -/
structure PoolState where
  entries : List IPPoolEntry
  used : List (String × Int)
deriving DecidableEq, Repr

/-- Embeds Redis `HIncrBy` on the stats hash: increment the counter,
creating it at 0 first when the field does not exist. -/
def hIncrBy (m : List (String × Int)) (k : String) (delta : Int) : List (String × Int) :=
  if m.any (fun p => p.1 == k) then
    m.map (fun p => if p.1 == k then (p.1, p.2 + delta) else p)
  else m ++ [(k, delta)]

/-- Embeds `Service.Release`: an unknown IP is ignored (success, no
change); a known IP has `expires_at` set to 0 (`ReleaseIP`) and the
owning pool's `used` counter decremented by one. -/
def Release (st : PoolState) (ip : Nat) : PoolState :=
  match st.entries.find? (fun e => e.ip == ip) with
  | none => st
  | some e =>
    { entries := st.entries.map (fun e' => if e'.ip == ip then { e' with expiresAt := 0 } else e'),
      used := hIncrBy st.used e.pool (-1) }

/-! ### Disconnect-Request packet
Embedding of `Service.buildDisconnectRequest` and
`Service.calculateRequestAuthenticator` from
`src/internal/services/disconnect/service.go` (lines 224-289, 486-504).
Bytes are `Nat` values, byte strings are `List Nat`.  The MD5 function of
`crypto/md5` is an external library primitive; the embedding is
parametric in it, and the theorems hold for every hash function that
returns 16-byte digests (as MD5 does). -/

/-- Optional NAS data extracted from the `nasSpec` map: each field is
present exactly when the corresponding key exists and survives the type
assertion / parse the Go code performs. -/
structure NasSpec where
  nasIP : Option (List Nat)
  nasPort : Option Nat
  nasIdentifier : Option (List Nat)

/-- Embeds `addStringAttribute`: type byte, length byte `2 + len` (a Go
`uint8`, hence mod 256), value bytes. -/
def addStringAttribute (t : Nat) (v : List Nat) : List Nat :=
  t :: (2 + v.length) % 256 :: v

/-- Embeds `addIPAttribute`: type byte, length byte 6, the 4 address
bytes. -/
def addIPAttribute (t : Nat) (ip4 : List Nat) : List Nat :=
  t :: 6 :: ip4

/-- Big-endian byte decomposition of a `uint32`
(`binary.BigEndian.PutUint32`). -/
def u32be (v : Nat) : List Nat :=
  [v / 2 ^ 24 % 256, v / 2 ^ 16 % 256, v / 2 ^ 8 % 256, v % 256]

/-- Embeds `addIntegerAttribute`: type byte, length byte 6, the value in
big-endian order. -/
def addIntegerAttribute (t : Nat) (v : Nat) : List Nat :=
  t :: 6 :: u32be v

/-- The attribute region the builder emits, in source order: User-Name
(1), Acct-Session-Id (44), Framed-IP-Address (8), NAS-IP-Address (4),
NAS-Port (5), NAS-Identifier (32), each only when present. -/
def disconnectAttributes (userName sid : List Nat) (ip : Option (List Nat))
    (nas : NasSpec) : List Nat :=
  (if userName ≠ [] then addStringAttribute 1 userName else []) ++
  (if sid ≠ [] then addStringAttribute 44 sid else []) ++
  (match ip with | some ip4 => addIPAttribute 8 ip4 | none => []) ++
  (match nas.nasIP with | some a => addIPAttribute 4 a | none => []) ++
  (match nas.nasPort with | some p => addIntegerAttribute 5 p | none => []) ++
  (match nas.nasIdentifier with | some s => addStringAttribute 32 s | none => [])

/-- Writes a digest over the authenticator slot, bytes 4-19 of the
packet: Go `copy(packet[4:20], digest)` for the 16-byte digests of
`crypto/md5`. -/
def writeDigest (p : List Nat) (d : List Nat) : List Nat :=
  p.take 4 ++ d ++ p.drop (4 + d.length)

/-- Embeds `calculateRequestAuthenticator`: hash of the 4 header bytes,
16 zero bytes standing in for the authenticator slot, the attribute
bytes, and the shared secret. -/
def requestAuthenticator (md5 : List Nat → List Nat) (packet secret : List Nat) : List Nat :=
  md5 (packet.take 4 ++ List.replicate 16 0 ++ packet.drop 20 ++ secret)

/-- Embeds `Service.buildDisconnectRequest`: header `[40, 1, 0, 0]`, a
zeroed 16-byte authenticator slot, the attributes; then the two length
bytes are patched to the big-endian `uint16` total length, and — when a
shared secret is configured — the authenticator digest is written over
bytes 4-19. -/
def buildDisconnectRequest (md5 : List Nat → List Nat) (userName sid : List Nat)
    (ip : Option (List Nat)) (nas : NasSpec) (secret : List Nat) : List Nat :=
  let p0 := 40 :: 1 :: 0 :: 0 ::
    (List.replicate 16 0 ++ disconnectAttributes userName sid ip nas)
  let p1 := (p0.set 2 (p0.length % 65536 / 256)).set 3 (p0.length % 256)
  if secret ≠ [] then writeDigest p1 (requestAuthenticator md5 p1 secret) else p1

/-! ### Monthly subscription charges
Embedding of `SubscriptionService` from `src/unnamed/part_008`
(lines 102-332): `getMonthlyFee`, `calculateProratedAmount`,
`isAlreadyCharged` and `processAccountCharge`.  Timestamps are `Int`
seconds; the billing period `[periodStart, periodEnd]` computed by
`calculateBillingPeriod` from the target date is passed in explicitly.
Money is `ℚ` (Go `float64`; the embedded code only adds, scales and
compares). -/

/-- Embeds a row of the `fin_transactions` ledger as the subscription
code reads and writes it. -/
structure FinTx where
  contractId : Nat
  comment : List Nat
  createdAt : Int
  amount : ℚ
deriving DecidableEq

/-- Embeds the fields of `AccountWithSubscription` the charge uses, with
`plan_data` already parsed. -/
structure SubAccount where
  id : Nat
  contractId : Nat
  planData : List (String × GoVal)
  createdAt : Int
  balance : ℚ
  credit : ℚ

/-- Embeds the subscription configuration knobs `processAccountCharge`
reads. -/
structure SubConfig where
  defaultMonthlyFee : ℚ
  enableProration : Bool

/-- Byte view of a string (comments travel as opaque byte sequences; SQL
`LIKE 'p%'` is byte-prefix matching). -/
def strBytes (s : String) : List Nat := s.data.map Char.toNat

/-- The fixed comment head the idempotency query matches with
`LIKE 'Monthly subscription fee%'`. -/
def monthlyFeeComment : List Nat := strBytes "Monthly subscription fee"

/-- Stands for the formatted comment `"Monthly subscription fee for
period YYYY-MM-DD - YYYY-MM-DD"`: the fixed head followed by a rendering
of the period bounds; only the fixed head is ever inspected. -/
def periodComment (ps pe : Int) : List Nat :=
  monthlyFeeComment ++ 32 :: ps.natAbs :: 45 :: [pe.natAbs]

/-- Embeds `isAlreadyCharged`: some ledger row of the account's contract
has a comment starting with `"Monthly subscription fee"`, a creation time
inside `[periodStart, periodEnd]`, and a negative amount (a debit). -/
def isAlreadyCharged (ledger : List FinTx) (contractId : Nat) (ps pe : Int) : Bool :=
  ledger.any (fun t =>
    t.contractId == contractId &&
    monthlyFeeComment.isPrefixOf t.comment &&
    decide (ps ≤ t.createdAt) && decide (t.createdAt ≤ pe) &&
    decide (t.amount < 0))

/-- Embeds `getMonthlyFee`: numeric `MONTHLY_FEE`, else numeric
`SUBSCRIPTION_FEE`, else the configured default. -/
def getMonthlyFee (cfg : SubConfig) (pd : List (String × GoVal)) : ℚ :=
  match lookupPlan pd "MONTHLY_FEE" with
  | some (GoVal.num x) => x
  | _ =>
    match lookupPlan pd "SUBSCRIPTION_FEE" with
    | some (GoVal.num x) => x
    | _ => cfg.defaultMonthlyFee

/-- Embeds `calculateProratedAmount`: full fee before the period, zero
after it, otherwise `fee * remainingDays / totalDays` with days counted
as seconds / 86400 (`Sub(...).Hours() / 24`). -/
def calculateProratedAmount (fee : ℚ) (created ps pe : Int) : ℚ :=
  if created < ps then fee
  else if pe < created then 0
  else
    let totalDays : ℚ := ((pe - ps : Int) : ℚ) / 86400
    let remainingDays : ℚ := ((pe - created : Int) : ℚ) / 86400
    if remainingDays ≤ 0 then 0 else fee * (remainingDays / totalDays)

/-- Outcome of one account's charge: the recorded status, the charged
amount, whether a debit was executed, and the resulting ledger. -/
structure ChargeOutcome where
  status : String
  amount : ℚ
  debited : Bool
  ledger : List FinTx

/-- Embeds `processAccountCharge` (part_008 lines 102-203).  A zero or
negative fee, or an already-charged period, short-circuits to success
with no debit; insufficient balance plus credit records a failure (the
optional account-deactivation touches only the accounts table and is
outside the ledger model); otherwise the debit is executed.

Modelled from the spec: the PostgreSQL function `debit_transaction`
invoked through `models.DebitTransactionQuery` is not part of the Go
sources; following the specification of the billing boundary (an atomic
debit on the contract recorded in the financial ledger), it appends a
`fin_transactions` row for the account's contract carrying the given
comment, the execution time as `created_at`, and the debited amount
negated.  The Go comment string formats the period bounds as dates;
only its fixed prefix `"Monthly subscription fee"` matters to the code,
so the embedding formats the raw numbers. -/
def processAccountCharge (cfg : SubConfig) (acct : SubAccount) (ledger : List FinTx)
    (ps pe now : Int) : ChargeOutcome :=
  let monthlyFee := getMonthlyFee cfg acct.planData
  if monthlyFee ≤ 0 then ⟨"success", 0, false, ledger⟩
  else if isAlreadyCharged ledger acct.contractId ps pe then ⟨"success", 0, false, ledger⟩
  else
    let finalAmount :=
      if cfg.enableProration then calculateProratedAmount monthlyFee acct.createdAt ps pe
      else monthlyFee
    if acct.balance + acct.credit < finalAmount then ⟨"failed", finalAmount, false, ledger⟩
    else
      ⟨"success", finalAmount, true,
        ledger ++ [⟨acct.contractId, periodComment ps pe, now, -finalAmount⟩]⟩

/-- Packs four dotted-quad components into the `uint32` address value, as
`IPToUint32` does in part_012. -/
def ipOf (a b c d : Nat) : Nat := ((a * 256 + b) * 256 + c) * 256 + d

/-- Reads a per-pool `used` counter (a missing Redis hash field counts
as 0). -/
def lookupUsed (m : List (String × Int)) (k : String) : Int :=
  match m.find? (fun p => p.1 == k) with
  | some p => p.2
  | none => 0

/-! ## Theorems -/

/-- C3: for every unsigned 64-bit octet count and remaining prepaid pool,
the overlimit computation returns `payable = max(0, octets − P)` and the
new pool `P' = max(0, P − octets)`, in exact integer arithmetic. -/
theorem c3_calculateOverlimit_correct (octets P : Nat)
    (h1 : octets < 2 ^ 64) (h2 : P < 2 ^ 64) :
    ((calculateOverlimit octets P).1 : ℤ) = max 0 ((octets : ℤ) - (P : ℤ)) ∧
    ((calculateOverlimit octets P).2 : ℤ) = max 0 ((P : ℤ) - (octets : ℤ)) := by
  unfold calculateOverlimit
  split <;> refine ⟨?_, ?_⟩ <;> push_cast <;> omega

/-- Witness for C3 at `octets = 5`, `P = 3`. -/
theorem c3_calculateOverlimit_witness :
    (5 : Nat) < 2 ^ 64 ∧ (3 : Nat) < 2 ^ 64 ∧
    (((calculateOverlimit 5 3).1 : ℤ) = max 0 ((5 : ℤ) - (3 : ℤ)) ∧
     ((calculateOverlimit 5 3).2 : ℤ) = max 0 ((3 : ℤ) - (5 : ℤ))) :=
  ⟨by norm_num, by norm_num, c3_calculateOverlimit_correct 5 3 (by norm_num) (by norm_num)⟩

/-! ### Correctness of the classification tree -/

/-- Two spans of a separated list that both contain an address are the
same span. -/
theorem contains_unique {l : List IPClassRange} (hp : l.Pairwise sep)
    {a b : IPClassRange} (ha : a ∈ l) (hb : b ∈ l) {v : Nat}
    (hav : inRange a v = true) (hbv : inRange b v = true) : a = b := by
  induction l with
  | nil => cases ha
  | cons x xs ih =>
    rcases List.pairwise_cons.mp hp with ⟨hx, hxs⟩
    rcases List.mem_cons.mp ha with rfl | ha' <;> rcases List.mem_cons.mp hb with rfl | hb'
    · rfl
    · have hsep := hx b hb'
      simp only [inRange, decide_eq_true_eq] at hav hbv
      exact absurd hsep (by simp only [sep]; omega)
    · have hsep := hx a ha'
      simp only [inRange, decide_eq_true_eq] at hav hbv
      exact absurd hsep (by simp only [sep]; omega)
    · exact ih hxs ha' hb'

/-- Key composition step: searching a node whose left subtree answers for
`l1`, element for `r0` and right subtree for `l2` answers for
`l1 ++ r0 :: l2`, provided `r0` is well-formed, everything in `l1` ends
before `r0` starts and `r0` ends before everything in `l2` starts. -/
theorem searchRecursive_node_linSearch (r0 : IPClassRange) (t1 t2 : Tree)
    (l1 l2 : List IPClassRange) (v : Nat)
    (hwf0 : r0.start ≤ r0.stop)
    (hsep1 : ∀ a ∈ l1, sep a r0)
    (hsep2 : ∀ b ∈ l2, sep r0 b)
    (h1 : searchRecursive t1 v = linSearch l1 v)
    (h2 : searchRecursive t2 v = linSearch l2 v) :
    searchRecursive (.node r0 t1 t2) v = linSearch (l1 ++ r0 :: l2) v := by
  simp only [searchRecursive]
  by_cases hc : r0.start ≤ v ∧ v ≤ r0.stop
  · rw [if_pos hc]
    have hnone : l1.find? (fun r => inRange r v) = none := by
      rw [List.find?_eq_none]
      intro a ha
      have := hsep1 a ha
      simp only [sep] at this
      simp only [inRange, decide_eq_true_eq]
      omega
    have hr0 : inRange r0 v = true := by
      simp only [inRange, decide_eq_true_eq]; exact hc
    simp [linSearch, List.find?_append, hnone, List.find?_cons, hr0]
  · rw [if_neg hc]
    by_cases hlt : v < r0.start
    · rw [if_pos hlt, h1]
      cases hfind : l1.find? (fun r => inRange r v) with
      | some r => simp [linSearch, List.find?_append, hfind]
      | none =>
        have hr0 : inRange r0 v = false := by
          simp only [inRange, decide_eq_false_iff_not]
          omega
        have hl2 : l2.find? (fun r => inRange r v) = none := by
          rw [List.find?_eq_none]
          intro b hb
          have := hsep2 b hb
          simp only [sep] at this
          simp only [inRange, decide_eq_true_eq]
          omega
        simp [linSearch, List.find?_append, hfind, List.find?_cons, hr0, hl2]
    · rw [if_neg hlt, h2]
      have hgt : r0.stop < v := by omega
      have hnone : l1.find? (fun r => inRange r v) = none := by
        rw [List.find?_eq_none]
        intro a ha
        have := hsep1 a ha
        simp only [sep] at this
        simp only [inRange, decide_eq_true_eq]
        omega
      have hr0 : inRange r0 v = false := by
        simp only [inRange, decide_eq_false_iff_not]
        omega
      simp [linSearch, List.find?_append, hnone, List.find?_cons, hr0]

/-- The slice builder maps the empty list to the empty tree. -/
theorem buildSlice_nil : buildSlice [] = Tree.nil := by
  rw [buildSlice.eq_def]
  rfl

/-- Searching the slice-built balanced tree of a separated list of
well-formed spans agrees with the linear reference lookup. -/
theorem searchRecursive_buildSlice :
    ∀ (n : Nat) (l : List IPClassRange), l.length = n →
      (∀ r ∈ l, r.start ≤ r.stop) → l.Pairwise sep → ∀ v,
      searchRecursive (buildSlice l) v = linSearch l v := by
  intro n
  induction n using Nat.strong_induction_on with
  | _ n ih =>
    intro l hlen hwf hp v
    rw [buildSlice]
    split
    case _ hdrop =>
      have : l = [] := by
        have := List.length_drop (l.length / 2) l
        rw [hdrop] at this
        have : l.length = 0 := by
          simp only [List.length_nil] at this
          omega
        exact List.length_eq_zero.mp this
      subst this
      simp [searchRecursive, linSearch]
    case _ r rest hdrop =>
      set mid := l.length / 2 with hmiddef
      have hlendrop := List.length_drop mid l
      rw [hdrop] at hlendrop
      have hpos : 0 < l.length := by
        simp only [List.length_cons] at hlendrop
        omega
      have hmidlt : mid < l.length := Nat.div_lt_self hpos one_lt_two
      have hrest : l.drop (mid + 1) = rest := by
        have : l.drop (mid + 1) = (l.drop mid).drop 1 := by
          rw [List.drop_drop]
        rw [this, hdrop]
        rfl
      have hdecomp : l = l.take mid ++ r :: l.drop (mid + 1) := by
        rw [hrest, ← hdrop, List.take_append_drop]
      have hp' := hp
      rw [hdecomp] at hp'
      rcases List.pairwise_append.mp hp' with ⟨hp1, hp2, hcross⟩
      rcases List.pairwise_cons.mp hp2 with ⟨hmidsep, hp3⟩
      have hwf0 : r.start ≤ r.stop := by
        refine hwf r ?_
        rw [hdecomp]
        exact List.mem_append_right _ (List.mem_cons_self _ _)
      have hleft : searchRecursive (buildSlice (l.take mid)) v = linSearch (l.take mid) v := by
        refine ih (l.take mid).length ?_ _ rfl ?_ hp1 v
        · simp only [List.length_take]
          omega
        · intro x hx
          exact hwf x (List.mem_of_mem_take hx)
      have hright : searchRecursive (buildSlice (l.drop (mid + 1))) v
          = linSearch (l.drop (mid + 1)) v := by
        refine ih (l.drop (mid + 1)).length ?_ _ rfl ?_ hp3 v
        · simp only [List.length_drop]
          omega
        · intro x hx
          exact hwf x (List.mem_of_mem_drop hx)
      have hnode := searchRecursive_node_linSearch r
        (buildSlice (l.take mid)) (buildSlice (l.drop (mid + 1)))
        (l.take mid) (l.drop (mid + 1)) v hwf0
        (fun a ha => hcross a ha _ (List.mem_cons_self _ _))
        hmidsep hleft hright
      rw [hnode, ← hdecomp]

/-- The index-window form of the Go builder equals the slice form on the
corresponding sublist. -/
theorem buildTreeRecursive_eq_buildSlice :
    ∀ (d : Nat) (l : List IPClassRange) (s e : Nat), e - s = d → e ≤ l.length →
      buildTreeRecursive l s e = buildSlice ((l.drop s).take (e - s)) := by
  intro d
  induction d using Nat.strong_induction_on with
  | _ d ih =>
    intro l s e hd hle
    rw [buildTreeRecursive]
    by_cases h : s < e
    · rw [dif_pos h]
      set q := (e - s) / 2 with hqdef
      have hq2 : q < e - s := Nat.div_lt_self (by omega) one_lt_two
      have hmidlt : s + q < l.length := by omega
      have hget : l[s + q]? = some (l.get ⟨s + q, hmidlt⟩) := List.getElem?_eq_getElem hmidlt
      have hlenslice : ((l.drop s).take (e - s)).length = e - s := by
        simp only [List.length_take, List.length_drop]
        omega
      have hdropmid : l.drop (s + q) = (l.get ⟨s + q, hmidlt⟩) :: l.drop (s + q + 1) :=
        List.drop_eq_getElem_cons hmidlt
      have hslice : ((l.drop s).take (e - s)).drop (((l.drop s).take (e - s)).length / 2)
          = (l.get ⟨s + q, hmidlt⟩) :: ((l.drop (s + q + 1)).take (e - s - q - 1)) := by
        rw [hlenslice, ← hqdef, List.drop_take, List.drop_drop, hdropmid]
        have : e - s - q = (e - s - q - 1) + 1 := by omega
        rw [this, List.take_succ_cons]
        simp only [Nat.add_sub_cancel]
      rw [buildSlice.eq_def]
      rw [hslice]
      simp only [hget]
      have hqlen : ((l.drop s).take (e - s)).length / 2 = q := by
        rw [hlenslice]
      congr 1
      · -- left subtree
        have hrec := ih q (by omega) l s (s + q) (by omega) (by omega)
        rw [hrec, hqlen, List.take_take]
        congr 2
        omega
      · -- right subtree
        have hrec := ih (e - (s + q + 1)) (by omega) l (s + q + 1) e rfl hle
        rw [hrec, hqlen, List.drop_take, List.drop_drop]
        congr 2
        omega
    · rw [dif_neg h]
      have h0 : e - s = 0 := by omega
      rw [h0, List.take_zero, buildSlice_nil]

/-- A list sorted by start whose members are pairwise disjoint and
well-formed is separated in list order. -/
theorem pairwise_sep_of_sorted_disjoint {l : List IPClassRange}
    (hs : l.Pairwise startLE) (hd : l.Pairwise disjointRanges)
    (hwf : ∀ r ∈ l, r.start ≤ r.stop) : l.Pairwise sep := by
  refine (hs.and hd).imp_of_mem ?_
  intro a b ha hb hab
  rcases hab with ⟨hle, hdj | hdj⟩
  · exact hdj
  · have := hwf b hb
    simp only [startLE] at hle
    simp only [sep]
    omega

/-- A separated list passes the overlap check. -/
theorem checkOverlaps_ok_of_pairwise :
    ∀ {l : List IPClassRange}, l.Pairwise sep → CheckOverlaps l = .ok () := by
  intro l hp
  induction l with
  | nil => rfl
  | cons a tl ih =>
    cases tl with
    | nil => rfl
    | cons b rest =>
      rcases List.pairwise_cons.mp hp with ⟨hab, htl⟩
      have hsepab := hab b (List.mem_cons_self _ _)
      simp only [sep] at hsepab
      simp only [CheckOverlaps, if_neg (by omega : ¬ b.start ≤ a.stop)]
      exact ih htl

/-- On a separated list the linear lookup hits `(c, true)` exactly when
some member span with class `c` contains the address. -/
theorem linSearch_some_iff {l : List IPClassRange} (hp : l.Pairwise sep)
    (v : Nat) (c : String) :
    linSearch l v = (c, true) ↔ ∃ r ∈ l, r.start ≤ v ∧ v ≤ r.stop ∧ r.cls = c := by
  constructor
  · intro h
    unfold linSearch at h
    cases hfind : l.find? (fun r => inRange r v) with
    | none => rw [hfind] at h; simp at h
    | some r =>
      rw [hfind] at h
      have hmem := List.mem_of_find?_eq_some hfind
      have hrv := List.find?_some hfind
      simp only [inRange, decide_eq_true_eq] at hrv
      simp only [Prod.mk.injEq] at h
      exact ⟨r, hmem, hrv.1, hrv.2, h.1⟩
  · rintro ⟨r, hmem, h1, h2, rfl⟩
    have hrv : inRange r v = true := by
      simp only [inRange, decide_eq_true_eq]; exact ⟨h1, h2⟩
    have hsome : (l.find? (fun r => inRange r v)).isSome = true :=
      List.find?_isSome.mpr ⟨r, hmem, hrv⟩
    cases hfind : l.find? (fun r => inRange r v) with
    | none => rw [hfind] at hsome; simp at hsome
    | some r0 =>
      have hmem0 := List.mem_of_find?_eq_some hfind
      have hr0v := List.find?_some hfind
      have : r0 = r := contains_unique hp hmem0 hmem hr0v hrv
      subst this
      simp [linSearch, hfind]

/-- The linear lookup misses exactly when no member span contains the
address. -/
theorem linSearch_none_iff (l : List IPClassRange) (v : Nat) :
    (linSearch l v).2 = false ↔ ∀ r ∈ l, ¬(r.start ≤ v ∧ v ≤ r.stop) := by
  unfold linSearch
  cases hfind : l.find? (fun r => inRange r v) with
  | none =>
    simp only [List.find?_eq_none] at hfind
    simp only [true_iff]
    intro r hr
    have := hfind r hr
    simpa [inRange] using this
  | some r =>
    have hmem := List.mem_of_find?_eq_some hfind
    have hrv := List.find?_some hfind
    simp only [inRange, decide_eq_true_eq] at hrv
    simp only [Bool.true_eq_false, false_iff, not_forall]
    push_neg
    exact ⟨r, hmem, hrv⟩

/-- C1: every traffic-class configuration accepted at load (well-formed,
pairwise-disjoint spans) builds a tree whose search returns `(c, true)`
exactly when some configured span with class `c` contains the address,
returns `found = false` when no span does, and in that case
`ClassifyWithDefault` falls back to the caller's default class. -/
theorem c1_classify_correct (cfg : List IPClassRange)
    (hwf : ∀ r ∈ cfg, r.start ≤ r.stop)
    (hdisj : cfg.Pairwise disjointRanges) :
    ∃ t, BuildTree cfg = .ok t ∧
      ∀ v : Nat,
        (∀ c, searchRecursive t v = (c, true) ↔
            ∃ r ∈ cfg, r.start ≤ v ∧ v ≤ r.stop ∧ r.cls = c) ∧
        ((searchRecursive t v).2 = false ↔ ∀ r ∈ cfg, ¬(r.start ≤ v ∧ v ≤ r.stop)) ∧
        (∀ d, (searchRecursive t v).2 = false → classifyWithDefault t v d = d) := by
  have hperm : (sortRanges cfg).Perm cfg := List.perm_insertionSort startLE cfg
  have hwf' : ∀ r ∈ sortRanges cfg, r.start ≤ r.stop := fun r hr =>
    hwf r (hperm.mem_iff.mp hr)
  have hdisj' : (sortRanges cfg).Pairwise disjointRanges := by
    refine (hperm.pairwise_iff ?_).mpr hdisj
    intro x y hxy
    rcases hxy with h | h
    · exact Or.inr h
    · exact Or.inl h
  have hsorted : (sortRanges cfg).Pairwise startLE :=
    List.sorted_insertionSort startLE cfg
  have hsep : (sortRanges cfg).Pairwise sep :=
    pairwise_sep_of_sorted_disjoint hsorted hdisj' hwf'
  cases hcfg : cfg with
  | nil =>
    refine ⟨.nil, by simp [BuildTree], ?_⟩
    intro v
    refine ⟨?_, ?_, ?_⟩
    · intro c
      simp [searchRecursive, Prod.ext_iff]
    · simp [searchRecursive]
    · intro d _
      simp [classifyWithDefault, searchRecursive]
  | cons a tl =>
    subst hcfg
    have hchk : CheckOverlaps (sortRanges (a :: tl)) = .ok () :=
      checkOverlaps_ok_of_pairwise hsep
    have hbuild : BuildTree (a :: tl)
        = .ok (buildTreeRecursive (sortRanges (a :: tl)) 0 (sortRanges (a :: tl)).length) := by
      simp only [BuildTree, List.isEmpty_cons, Bool.false_eq_true, if_false, hchk]
    refine ⟨_, hbuild, ?_⟩
    intro v
    have hsearch : searchRecursive
        (buildTreeRecursive (sortRanges (a :: tl)) 0 (sortRanges (a :: tl)).length) v
        = linSearch (sortRanges (a :: tl)) v := by
      rw [buildTreeRecursive_eq_buildSlice ((sortRanges (a :: tl)).length - 0) _ 0 _ rfl
        (Nat.le_refl _)]
      rw [List.drop_zero, Nat.sub_zero, List.take_length]
      exact searchRecursive_buildSlice (sortRanges (a :: tl)).length _ rfl hwf' hsep v
    refine ⟨?_, ?_, ?_⟩
    · intro c
      rw [hsearch, linSearch_some_iff hsep]
      constructor
      · rintro ⟨r, hr, h⟩
        exact ⟨r, hperm.mem_iff.mp hr, h⟩
      · rintro ⟨r, hr, h⟩
        exact ⟨r, hperm.mem_iff.mpr hr, h⟩
    · rw [hsearch, linSearch_none_iff]
      constructor
      · intro h r hr
        exact h r (hperm.mem_iff.mpr hr)
      · intro h r hr
        exact h r (hperm.mem_iff.mp hr)
    · intro d hmiss
      simp only [classifyWithDefault, hmiss]
      rfl

/-- Witness for C1: the two-span configuration
`[0-10 ↦ "a", 20-30 ↦ "b"]` is well-formed and disjoint, and the theorem
applies to it. -/
theorem c1_classify_correct_witness :
    ((∀ r ∈ [IPClassRange.mk 0 10 "a", IPClassRange.mk 20 30 "b"], r.start ≤ r.stop) ∧
      ([IPClassRange.mk 0 10 "a", IPClassRange.mk 20 30 "b"].Pairwise disjointRanges)) ∧
    (∃ t, BuildTree [IPClassRange.mk 0 10 "a", IPClassRange.mk 20 30 "b"] = .ok t ∧
      ∀ v : Nat,
        (∀ c, searchRecursive t v = (c, true) ↔
            ∃ r ∈ [IPClassRange.mk 0 10 "a", IPClassRange.mk 20 30 "b"],
              r.start ≤ v ∧ v ≤ r.stop ∧ r.cls = c) ∧
        ((searchRecursive t v).2 = false ↔
          ∀ r ∈ [IPClassRange.mk 0 10 "a", IPClassRange.mk 20 30 "b"],
            ¬(r.start ≤ v ∧ v ≤ r.stop)) ∧
        (∀ d, (searchRecursive t v).2 = false → classifyWithDefault t v d = d)) :=
  ⟨⟨by decide, by decide⟩, c1_classify_correct _ (by decide) (by decide)⟩

/-! ### Overlap rejection (C2) -/

/-- Unfolding of an adjacent violation at a cons cell. -/
theorem adjacentViolation_cons {x : IPClassRange} {l : List IPClassRange}
    {a b : IPClassRange} :
    adjacentViolation (x :: l) a b ↔
      (x = a ∧ (∃ l2, l = b :: l2) ∧ b.start ≤ a.stop) ∨ adjacentViolation l a b := by
  constructor
  · rintro ⟨l1, l2, heq, hcond⟩
    cases l1 with
    | nil =>
      rw [List.nil_append, List.cons.injEq] at heq
      exact Or.inl ⟨heq.1, ⟨l2, heq.2⟩, hcond⟩
    | cons y l1' =>
      rw [List.cons_append, List.cons.injEq] at heq
      exact Or.inr ⟨l1', l2, heq.2, hcond⟩
  · rintro (⟨rfl, ⟨l2, rfl⟩, hcond⟩ | ⟨l1, l2, rfl, hcond⟩)
    · exact ⟨[], l2, rfl, hcond⟩
    · exact ⟨x :: l1, l2, rfl, hcond⟩

/-- No adjacent violation exists in the empty list. -/
theorem adjacentViolation_nil (a b : IPClassRange) : ¬ adjacentViolation [] a b := by
  rintro ⟨l1, l2, heq, -⟩
  cases l1 <;> simp at heq

/-- The overlap check fails exactly when the list has an adjacent
violation. -/
theorem checkOverlaps_error_iff (l : List IPClassRange) :
    (∃ p, CheckOverlaps l = .error p) ↔ ∃ a b, adjacentViolation l a b := by
  induction l with
  | nil =>
    simp only [CheckOverlaps]
    constructor
    · rintro ⟨p, hp⟩
      cases hp
    · rintro ⟨a, b, hv⟩
      exact absurd hv (adjacentViolation_nil a b)
  | cons x tl ih =>
    cases tl with
    | nil =>
      simp only [CheckOverlaps]
      constructor
      · rintro ⟨p, hp⟩
        cases hp
      · rintro ⟨a, b, hv⟩
        rw [adjacentViolation_cons] at hv
        rcases hv with ⟨-, ⟨l2, h⟩, -⟩ | hv
        · cases h
        · exact absurd hv (adjacentViolation_nil a b)
    | cons y rest =>
      by_cases hc : y.start ≤ x.stop
      · constructor
        · intro _
          exact ⟨x, y, [], rest, rfl, hc⟩
        · intro _
          exact ⟨(x, y), by simp [CheckOverlaps, hc]⟩
      · have hstep : CheckOverlaps (x :: y :: rest) = CheckOverlaps (y :: rest) := by
          simp [CheckOverlaps, hc]
        rw [hstep, ih]
        constructor
        · rintro ⟨a, b, hv⟩
          exact ⟨a, b, adjacentViolation_cons.mpr (Or.inr hv)⟩
        · rintro ⟨a, b, hv⟩
          rw [adjacentViolation_cons] at hv
          rcases hv with ⟨rfl, ⟨l2, hl⟩, hcond⟩ | hv
          · rw [List.cons.injEq] at hl
            exact absurd (hl.1 ▸ hcond) hc
          · exact ⟨a, b, hv⟩

/-- When the overlap check reports a pair, that pair really is an
adjacent violation of the list. -/
theorem checkOverlaps_error_names :
    ∀ (l : List IPClassRange) (a b : IPClassRange),
      CheckOverlaps l = .error (a, b) → adjacentViolation l a b := by
  intro l
  induction l with
  | nil => intro a b h; cases h
  | cons x tl ih =>
    cases tl with
    | nil => intro a b h; cases h
    | cons y rest =>
      intro a b h
      by_cases hc : y.start ≤ x.stop
      · simp only [CheckOverlaps, if_pos hc, Except.error.injEq, Prod.mk.injEq] at h
        exact ⟨[], rest, by rw [h.1, h.2, List.nil_append], h.1 ▸ h.2 ▸ hc⟩
      · simp only [CheckOverlaps, if_neg hc] at h
        exact adjacentViolation_cons.mpr (Or.inr (ih a b h))

/-- C2: building the classification tree fails with an overlap error
exactly when the start-sorted triples contain an adjacent pair with
`triples[i].start ≤ triples[i-1].end`; the reported error carries both
offending spans, and on such input no tree is produced. -/
theorem c2_overlap_rejection (l : List IPClassRange) :
    ((∃ p, BuildTree l = .error p) ↔ ∃ a b, adjacentViolation (sortRanges l) a b) ∧
    (∀ a b, BuildTree l = .error (a, b) →
      adjacentViolation (sortRanges l) a b ∧ ∀ t, BuildTree l ≠ .ok t) := by
  by_cases hemp : l.isEmpty
  · have hnil : l = [] := by
      cases l with
      | nil => rfl
      | cons x tl => simp at hemp
    subst hnil
    constructor
    · constructor
      · rintro ⟨p, hp⟩
        simp [BuildTree] at hp
      · rintro ⟨a, b, hv⟩
        exact absurd hv (by simpa [sortRanges] using adjacentViolation_nil a b)
    · intro a b h
      simp [BuildTree] at h
  · have hBuild : ∀ p, BuildTree l = .error p ↔ CheckOverlaps (sortRanges l) = .error p := by
      intro p
      cases hchk : CheckOverlaps (sortRanges l) with
      | ok u =>
        cases u
        simp [BuildTree, hemp, hchk]
      | error q =>
        simp [BuildTree, hemp, hchk]
    constructor
    · rw [← checkOverlaps_error_iff]
      constructor
      · rintro ⟨p, hp⟩
        exact ⟨p, (hBuild p).mp hp⟩
      · rintro ⟨p, hp⟩
        exact ⟨p, (hBuild p).mpr hp⟩
    · intro a b h
      have hchk := (hBuild (a, b)).mp h
      refine ⟨checkOverlaps_error_names _ a b hchk, ?_⟩
      intro t ht
      rw [ht] at h
      cases h

/-- Witness for C2: the spans `[0-10 "a"]` and `[5-20 "b"]` overlap; the
builder reports exactly this pair and produces no tree. -/
theorem c2_overlap_rejection_witness :
    BuildTree [IPClassRange.mk 0 10 "a", IPClassRange.mk 5 20 "b"]
      = .error (IPClassRange.mk 0 10 "a", IPClassRange.mk 5 20 "b") ∧
    adjacentViolation (sortRanges [IPClassRange.mk 0 10 "a", IPClassRange.mk 5 20 "b"])
      (IPClassRange.mk 0 10 "a") (IPClassRange.mk 5 20 "b") ∧
    ∀ t, BuildTree [IPClassRange.mk 0 10 "a", IPClassRange.mk 5 20 "b"] ≠ .ok t := by
  have herr : BuildTree [IPClassRange.mk 0 10 "a", IPClassRange.mk 5 20 "b"]
      = .error (IPClassRange.mk 0 10 "a", IPClassRange.mk 5 20 "b") := rfl
  have h := (c2_overlap_rejection [IPClassRange.mk 0 10 "a", IPClassRange.mk 5 20 "b"]).2
    _ _ herr
  exact ⟨herr, h.1, h.2⟩

/-! ### Equivalence of the two tree builders (C10) -/

/-- The Erlang-style builder consumes exactly its first `n` elements. -/
theorem treeFromList_snd :
    ∀ (n : Nat) (l : List IPClassRange), n ≤ l.length → (treeFromList l n).2 = l.drop n := by
  intro n
  induction n using Nat.strong_induction_on with
  | _ n ih =>
    intro l hn
    cases n with
    | zero => simp [treeFromList]
    | succ m =>
      have hf : m / 2 < l.length := by
        have := Nat.div_le_self m 2
        omega
      have hlt2 : (treeFromList l (m / 2)).2 = l.drop (m / 2) :=
        ih (m / 2) (by omega) l (by omega)
      have hcons : l.drop (m / 2) = (l.get ⟨m / 2, hf⟩) :: l.drop (m / 2 + 1) :=
        List.drop_eq_getElem_cons hf
      have hrest : (treeFromList (l.drop (m / 2 + 1)) (m - m / 2)).2
          = (l.drop (m / 2 + 1)).drop (m - m / 2) := by
        refine ih (m - m / 2) (by omega) _ ?_
        simp only [List.length_drop]
        omega
      simp only [treeFromList, hlt2, hcons, hrest, List.drop_drop]
      congr 1
      omega

/-- Searching the tree built by the Erlang-style builder over the first
`n` elements agrees with the linear reference lookup on them. -/
theorem searchRecursive_treeFromList :
    ∀ (n : Nat) (l : List IPClassRange), n ≤ l.length →
      (∀ r ∈ l.take n, r.start ≤ r.stop) → (l.take n).Pairwise sep → ∀ v,
      searchRecursive (treeFromList l n).1 v = linSearch (l.take n) v := by
  intro n
  induction n using Nat.strong_induction_on with
  | _ n ih =>
    intro l hn hwf hp v
    cases n with
    | zero => simp [treeFromList, linSearch, searchRecursive]
    | succ m =>
      have hf : m / 2 < l.length := by
        have := Nat.div_le_self m 2
        omega
      have hlt2 : (treeFromList l (m / 2)).2 = l.drop (m / 2) :=
        treeFromList_snd (m / 2) l (by omega)
      have hcons : l.drop (m / 2) = (l.get ⟨m / 2, hf⟩) :: l.drop (m / 2 + 1) :=
        List.drop_eq_getElem_cons hf
      have hdecomp : l.take (m + 1)
          = l.take (m / 2) ++ (l.get ⟨m / 2, hf⟩) :: (l.drop (m / 2 + 1)).take (m - m / 2) := by
        have hsplit : m + 1 = m / 2 + (m + 1 - m / 2) := by omega
        rw [hsplit, List.take_add]
        congr 1
        rw [hcons]
        have : m + 1 - m / 2 = (m - m / 2) + 1 := by omega
        rw [this, List.take_succ_cons]
      have hp' := hp
      rw [hdecomp] at hp'
      rcases List.pairwise_append.mp hp' with ⟨hp1, hp2, hcross⟩
      rcases List.pairwise_cons.mp hp2 with ⟨hmidsep, hp3⟩
      have hwfmid : (l.get ⟨m / 2, hf⟩).start ≤ (l.get ⟨m / 2, hf⟩).stop := by
        refine hwf _ ?_
        rw [hdecomp]
        exact List.mem_append_right _ (List.mem_cons_self _ _)
      have hleft : searchRecursive (treeFromList l (m / 2)).1 v
          = linSearch (l.take (m / 2)) v := by
        refine ih (m / 2) (by omega) l (by omega) ?_ hp1 v
        intro x hx
        refine hwf x ?_
        rw [hdecomp]
        exact List.mem_append_left _ hx
      have hright : searchRecursive (treeFromList (l.drop (m / 2 + 1)) (m - m / 2)).1 v
          = linSearch ((l.drop (m / 2 + 1)).take (m - m / 2)) v := by
        refine ih (m - m / 2) (by omega) _ ?_ ?_ hp3 v
        · simp only [List.length_drop]
          omega
        · intro x hx
          refine hwf x ?_
          rw [hdecomp]
          exact List.mem_append_right _ (List.mem_cons_of_mem _ hx)
      have hnode := searchRecursive_node_linSearch (l.get ⟨m / 2, hf⟩)
        (treeFromList l (m / 2)).1 (treeFromList (l.drop (m / 2 + 1)) (m - m / 2)).1
        (l.take (m / 2)) ((l.drop (m / 2 + 1)).take (m - m / 2)) v hwfmid
        (fun a ha => hcross a ha _ (List.mem_cons_self _ _))
        hmidsep hleft hright
      rw [← hdecomp] at hnode
      rw [← hnode]
      simp only [treeFromList, hlt2, hcons]

/-- C10: over a sorted, pairwise-disjoint list of well-formed spans, the
tree built by the `(n-1)/2`-rooting builder of part_005 and the tree
built by the `n/2`-rooting builder of part_012 classify every address
identically. -/
theorem c10_builders_equivalent (l : List IPClassRange)
    (hsorted : l.Pairwise startLE) (hdisj : l.Pairwise disjointRanges)
    (hwf : ∀ r ∈ l, r.start ≤ r.stop) (v : Nat) :
    searchRecursive (treeFromList l l.length).1 v
      = searchRecursive (buildTreeRecursive l 0 l.length) v := by
  have hsep := pairwise_sep_of_sorted_disjoint hsorted hdisj hwf
  have h1 := searchRecursive_treeFromList l.length l (Nat.le_refl _)
    (by rw [List.take_length]; exact hwf) (by rw [List.take_length]; exact hsep) v
  rw [List.take_length] at h1
  have h2 : searchRecursive (buildTreeRecursive l 0 l.length) v = linSearch l v := by
    rw [buildTreeRecursive_eq_buildSlice (l.length - 0) l 0 l.length rfl (Nat.le_refl _),
      List.drop_zero, Nat.sub_zero, List.take_length]
    exact searchRecursive_buildSlice l.length l rfl hwf hsep v
  rw [h1, h2]

/-- Witness for C10 on the sorted disjoint list
`[0-10 "a", 20-30 "b", 40-50 "c"]` (where the two builders pick different
roots). -/
theorem c10_builders_equivalent_witness :
    (([IPClassRange.mk 0 10 "a", IPClassRange.mk 20 30 "b",
        IPClassRange.mk 40 50 "c"].Pairwise startLE) ∧
     ([IPClassRange.mk 0 10 "a", IPClassRange.mk 20 30 "b",
        IPClassRange.mk 40 50 "c"].Pairwise disjointRanges) ∧
     (∀ r ∈ [IPClassRange.mk 0 10 "a", IPClassRange.mk 20 30 "b",
        IPClassRange.mk 40 50 "c"], r.start ≤ r.stop)) ∧
    searchRecursive
        (treeFromList [IPClassRange.mk 0 10 "a", IPClassRange.mk 20 30 "b",
          IPClassRange.mk 40 50 "c"]
          [IPClassRange.mk 0 10 "a", IPClassRange.mk 20 30 "b",
            IPClassRange.mk 40 50 "c"].length).1 25
      = searchRecursive
          (buildTreeRecursive [IPClassRange.mk 0 10 "a", IPClassRange.mk 20 30 "b",
            IPClassRange.mk 40 50 "c"] 0
            [IPClassRange.mk 0 10 "a", IPClassRange.mk 20 30 "b",
              IPClassRange.mk 40 50 "c"].length) 25 :=
  ⟨⟨by decide, by decide, by decide⟩,
    c10_builders_equivalent _ (by decide) (by decide) (by decide) 25⟩

/-! ### Access intervals (C5) -/

/-- The Go scan loop is first-match selection over `entryMatches`. -/
theorem scanIntervals_eq_find (ds : String) (t : Nat) :
    ∀ l : List GoVal, scanIntervals ds t l =
      match l.find? (entryMatches t) with
      | some iv => entryDecision ds iv
      | none => ⟨"reject", ""⟩ := by
  intro l
  induction l with
  | nil => rfl
  | cons iv rest ih =>
    have hskip : entryMatches t iv = false →
        (match (iv :: rest).find? (entryMatches t) with
          | some e => entryDecision ds e
          | none => (⟨"reject", ""⟩ : AccessResult))
        = match rest.find? (entryMatches t) with
          | some e => entryDecision ds e
          | none => ⟨"reject", ""⟩ := by
      intro hm
      rw [List.find?_cons_of_neg _ (by simp [hm])]
    cases iv with
    | num x =>
      rw [hskip rfl]
      exact ih
    | str s =>
      rw [hskip rfl]
      exact ih
    | other =>
      rw [hskip rfl]
      exact ih
    | list d =>
      by_cases hlen : d.length < 2
      · have hm : entryMatches t (GoVal.list d) = false := by
          simp only [entryMatches]
          have : ¬ (2 ≤ d.length) := by omega
          simp [this]
        rw [hskip hm]
        simp only [scanIntervals, if_pos hlen]
        exact ih
      · cases h0 : d[0]? with
        | none =>
          have hm : entryMatches t (GoVal.list d) = false := by
            simp [entryMatches, h0]
          rw [hskip hm]
          simp only [scanIntervals, if_neg hlen, h0]
          exact ih
        | some b0 =>
          cases b0 with
          | num boundary =>
            by_cases hb : (t : ℚ) < boundary
            · cases h1 : d[1]? with
              | none =>
                have hm : entryMatches t (GoVal.list d) = false := by
                  simp [entryMatches, h0, h1]
                rw [hskip hm]
                simp only [scanIntervals, if_neg hlen, h0, if_pos hb, h1]
                exact ih
              | some b1 =>
                cases b1 with
                | str access =>
                  have hm : entryMatches t (GoVal.list d) = true := by
                    have h2 : 2 ≤ d.length := by omega
                    simp [entryMatches, h0, h1, hb, h2]
                  rw [List.find?_cons_of_pos _ hm]
                  simp only [scanIntervals, if_neg hlen, h0, if_pos hb, h1,
                    entryDecision]
                  by_cases h2 : 2 < d.length
                  · simp [h2]
                  · have h2' : d[2]? = none := by
                      rw [List.getElem?_eq_none]
                      omega
                    simp [h2, h2']
                | num y =>
                  have hm : entryMatches t (GoVal.list d) = false := by
                    simp [entryMatches, h0, h1]
                  rw [hskip hm]
                  simp only [scanIntervals, if_neg hlen, h0, if_pos hb, h1]
                  exact ih
                | list dl =>
                  have hm : entryMatches t (GoVal.list d) = false := by
                    simp [entryMatches, h0, h1]
                  rw [hskip hm]
                  simp only [scanIntervals, if_neg hlen, h0, if_pos hb, h1]
                  exact ih
                | other =>
                  have hm : entryMatches t (GoVal.list d) = false := by
                    simp [entryMatches, h0, h1]
                  rw [hskip hm]
                  simp only [scanIntervals, if_neg hlen, h0, if_pos hb, h1]
                  exact ih
            · have hm : entryMatches t (GoVal.list d) = false := by
                simp [entryMatches, h0, hb]
              rw [hskip hm]
              simp only [scanIntervals, if_neg hlen, h0, if_neg hb]
              exact ih
          | str s =>
            have hm : entryMatches t (GoVal.list d) = false := by
              simp [entryMatches, h0]
            rw [hskip hm]
            simp only [scanIntervals, if_neg hlen, h0]
            exact ih
          | list dl =>
            have hm : entryMatches t (GoVal.list d) = false := by
              simp [entryMatches, h0]
            rw [hskip hm]
            simp only [scanIntervals, if_neg hlen, h0]
            exact ih
          | other =>
            have hm : entryMatches t (GoVal.list d) = false := by
              simp [entryMatches, h0]
            rw [hskip hm]
            simp only [scanIntervals, if_neg hlen, h0]
            exact ih

/-- C5 (amended): the access-interval check accepts with the default
shaper when `ACCESS_INTERVALS` is missing, not a list, or empty;
otherwise it applies the decision of the first well-formed matching
entry (for `accept`, the entry's string shaper or the default; for any
other directive, reject with no shaper), and rejects when no entry
matches. -/
theorem c5_access_intervals_amended (pd : List (String × GoVal)) (ds : String) (t : Nat) :
    checkAccessIntervals pd ds t = checkAccessIntervalsSpec pd ds t := by
  unfold checkAccessIntervals checkAccessIntervalsSpec
  cases h : lookupPlan pd "ACCESS_INTERVALS" with
  | none => rfl
  | some gv =>
    cases gv with
    | num x => rfl
    | str s => rfl
    | other => rfl
    | list intervals =>
      by_cases hemp : intervals.isEmpty
      · simp only [if_pos hemp]
      · simp only [if_neg hemp]
        exact scanIntervals_eq_find ds t intervals

/-- Counterexample for C5 as stated: with an empty `ACCESS_INTERVALS`
list no entry matches, yet the decision is accept (with the default
shaper), not the claimed reject. -/
theorem c5_access_intervals_counterexample :
    (checkAccessIntervals [("ACCESS_INTERVALS", GoVal.list [])] "dflt" 0).decision
      = "accept" ∧ ("accept" : String) ≠ "reject" :=
  ⟨rfl, by decide⟩

/-! ### NetFlow dispatcher (C4) -/

/-- C4, evaluated at the failing input: for the inbound flow
`src = 8.8.8.8, dst = 10.0.0.10` whose session is owned by `10.0.0.10`,
the handler passes to accounting the class of the subscriber-side
destination address — `"local"` — although the claim requires the class
of the opposite peer `8.8.8.8`, which is `"internet"`; and the lookup
side of the claim holds: with no owning session the flow is dropped
silently with no state change. -/
theorem c4_netflow_failing_input :
    ((handleNetFlow [⟨"u1", ipOf 10 0 0 10, true, [], 0, 0, 0, 0, 0, []⟩]
        "in" (ipOf 8 8 8 8) (ipOf 10 0 0 10) 1048576 1).2.map Prod.fst
      = some "local") ∧
    classifyTrafficNF (ipOf 10 0 0 10) = "local" ∧
    classifyTrafficNF (ipOf 8 8 8 8) = "internet" ∧
    handleNetFlow [] "in" (ipOf 8 8 8 8) (ipOf 10 0 0 10) 1048576 1 = ([], none) := by
  refine ⟨?_, rfl, rfl, rfl⟩
  rfl

/-! ### CIDR expansion of the IP pool (C6) -/

/-- Length of the block enumeration. -/
theorem length_enumFrom : ∀ (n c : Nat), (enumFrom c n).length = n := by
  intro n
  induction n with
  | zero => intro c; rfl
  | succ m ih =>
    intro c
    simp [enumFrom, ih]

/-- Membership in the block enumeration. -/
theorem mem_enumFrom : ∀ (n c x : Nat), x ∈ enumFrom c n ↔ c ≤ x ∧ x < c + n := by
  intro n
  induction n with
  | zero =>
    intro c x
    simp [enumFrom]
  | succ m ih =>
    intro c x
    simp only [enumFrom, List.mem_cons, ih]
    omega

/-- Dropping the last element of the enumeration shortens it by one. -/
theorem dropLast_enumFrom : ∀ (n c : Nat), (enumFrom c (n + 1)).dropLast = enumFrom c n := by
  intro n
  induction n with
  | zero => intro c; rfl
  | succ m ih =>
    intro c
    show (c :: (c + 1) :: enumFrom (c + 2) m).dropLast = c :: enumFrom (c + 1) m
    rw [List.dropLast_cons₂]
    congr 1
    exact ih (c + 1)

/-- Counterexample for C6 as stated: for the block `192.168.1.0/30` the
network address lies in the claimed span yet is not allocated (the code
strips network and broadcast for masks of length at least 24). -/
theorem c6_parseCIDR_counterexample :
    cidrBase (ipOf 192 168 1 0) 30 ∉ parseCIDRIps (ipOf 192 168 1 0) 30 ∧
    cidrBase (ipOf 192 168 1 0) 30 ≤ cidrLast (ipOf 192 168 1 0) 30 := by
  decide

/-- C6 (amended): for a mask of length `1 ≤ m ≤ 32`, the allocated set is
the full block span, except that when `m ≥ 24` and the block has more
than two addresses the network (first) and broadcast (last) addresses are
excluded. -/
theorem c6_parseCIDR_amended (ip m x : Nat) (hm1 : 1 ≤ m) (hm2 : m ≤ 32) :
    x ∈ parseCIDRIps ip m ↔
      (cidrBase ip m ≤ x ∧ x ≤ cidrLast ip m ∧
        (24 ≤ m ∧ 2 < 2 ^ (32 - m) → x ≠ cidrBase ip m ∧ x ≠ cidrLast ip m)) := by
  have hN : 0 < 2 ^ (32 - m) := Nat.pos_pow_of_pos _ (by norm_num)
  unfold parseCIDRIps cidrLast
  set base := cidrBase ip m with hbase
  set N := 2 ^ (32 - m) with hNdef
  have hlen : (enumFrom base N).length = N := length_enumFrom N base
  by_cases hcond : 24 ≤ m ∧ 2 < (enumFrom base N).length
  · rw [if_pos hcond]
    rw [hlen] at hcond
    obtain ⟨k, hk⟩ : ∃ k, N = (k + 1) + 1 := ⟨N - 2, by omega⟩
    have hdrop : (enumFrom base N).drop 1 = enumFrom (base + 1) (k + 1) := by
      rw [hk]
      rfl
    rw [hdrop, dropLast_enumFrom, mem_enumFrom]
    have hguard : 24 ≤ m ∧ 2 < N := hcond
    constructor
    · intro hx
      refine ⟨by omega, by omega, fun _ => ⟨by omega, by omega⟩⟩
    · rintro ⟨hx1, hx2, himp⟩
      have := himp hguard
      omega
  · rw [if_neg hcond]
    rw [hlen] at hcond
    rw [mem_enumFrom]
    constructor
    · intro hx
      refine ⟨by omega, by omega, fun hg => absurd hg ?_⟩
      intro hg2
      exact hcond hg2
    · rintro ⟨hx1, hx2, -⟩
      omega

/-- Witness for C6 (amended) at `192.168.1.0/30` and the host address
`192.168.1.1`. -/
theorem c6_parseCIDR_amended_witness :
    ((1 : Nat) ≤ 30 ∧ (30 : Nat) ≤ 32) ∧
    (ipOf 192 168 1 1 ∈ parseCIDRIps (ipOf 192 168 1 0) 30 ↔
      (cidrBase (ipOf 192 168 1 0) 30 ≤ ipOf 192 168 1 1 ∧
        ipOf 192 168 1 1 ≤ cidrLast (ipOf 192 168 1 0) 30 ∧
        (24 ≤ 30 ∧ 2 < 2 ^ (32 - 30) →
          ipOf 192 168 1 1 ≠ cidrBase (ipOf 192 168 1 0) 30 ∧
          ipOf 192 168 1 1 ≠ cidrLast (ipOf 192 168 1 0) 30))) :=
  ⟨by decide, c6_parseCIDR_amended (ipOf 192 168 1 0) 30 (ipOf 192 168 1 1)
    (by decide) (by decide)⟩

/-! ### IP-pool release (C7) -/

/-- Incrementing a counter field changes exactly that key's value. -/
theorem lookupUsed_hIncrBy (m : List (String × Int)) (k : String) (d : Int) :
    lookupUsed (hIncrBy m k d) k = lookupUsed m k + d := by
  induction m with
  | nil =>
    simp [hIncrBy, lookupUsed]
  | cons p tl ih =>
    by_cases hp : (p.1 == k) = true
    · have hany : ((p :: tl).any fun q => q.1 == k) = true := by
        simp [List.any_cons, hp]
      have hmap : hIncrBy (p :: tl) k d
          = (p.1, p.2 + d) :: tl.map (fun q => if q.1 == k then (q.1, q.2 + d) else q) := by
        simp only [hIncrBy, hany, if_true, List.map_cons, hp]
      have hf1 : ((p.1, p.2 + d) :: tl.map (fun q => if q.1 == k then (q.1, q.2 + d) else q)).find?
          (fun q => q.1 == k) = some (p.1, p.2 + d) := List.find?_cons_of_pos _ hp
      have hf2 : (p :: tl).find? (fun q => q.1 == k) = some p := List.find?_cons_of_pos _ hp
      rw [hmap]
      unfold lookupUsed
      rw [hf1, hf2]
    · by_cases htl : (tl.any fun q => q.1 == k) = true
      · have hany : ((p :: tl).any fun q => q.1 == k) = true := by
          simp [List.any_cons, htl]
        have hstep : hIncrBy (p :: tl) k d = p :: hIncrBy tl k d := by
          simp only [hIncrBy, hany, if_true, List.map_cons, htl]
          rw [if_neg hp]
        have hf1 : (p :: hIncrBy tl k d).find? (fun q => q.1 == k)
            = (hIncrBy tl k d).find? (fun q => q.1 == k) := List.find?_cons_of_neg _ hp
        have hf2 : (p :: tl).find? (fun q => q.1 == k)
            = tl.find? (fun q => q.1 == k) := List.find?_cons_of_neg _ hp
        rw [hstep]
        have ih' := ih
        unfold lookupUsed at ih' ⊢
        rw [hf1, hf2]
        exact ih'
      · have htlf : (tl.any fun q => q.1 == k) = false := Bool.eq_false_iff.mpr htl
        have hany : ((p :: tl).any fun q => q.1 == k) = false := by
          simp only [List.any_cons, Bool.or_eq_false_iff]
          exact ⟨Bool.eq_false_iff.mpr hp, htlf⟩
        have hstep : hIncrBy (p :: tl) k d = (p :: tl) ++ [(k, d)] := by
          simp only [hIncrBy, hany, Bool.false_eq_true, if_false]
        have hfindtl : tl.find? (fun q => q.1 == k) = none := by
          rw [List.find?_eq_none]
          intro q hq
          exact List.any_eq_false.mp htlf q hq
        have hfk : ([(k, d)] : List (String × Int)).find? (fun q => q.1 == k)
            = some (k, d) := List.find?_cons_of_pos _ (by simp)
        rw [hstep]
        unfold lookupUsed
        rw [List.cons_append]
        have hf1 : (p :: (tl ++ [(k, d)])).find? (fun q => q.1 == k)
            = (tl ++ [(k, d)]).find? (fun q => q.1 == k) := List.find?_cons_of_neg _ hp
        have hf2 : (p :: tl).find? (fun q => q.1 == k)
            = tl.find? (fun q => q.1 == k) := List.find?_cons_of_neg _ hp
        rw [hf1, hf2, List.find?_append, hfindtl, hfk]
        simp

/-- The entry-map step of `Release` preserves the IP key. -/
theorem release_map_ip (ip : Nat) (e' : IPPoolEntry) :
    ((if e'.ip == ip then { e' with expiresAt := 0 } else e') : IPPoolEntry).ip = e'.ip := by
  by_cases h : e'.ip == ip <;> simp [h]

/-- C7 (amended): releasing a known IP zeroes its entry's `expires_at`
and decrements the owning pool's `used` counter; releasing an unknown IP
changes nothing and succeeds; a second release leaves the entries
unchanged (idempotent on entries) but decrements the pool's `used`
counter a second time. -/
theorem c7_release_amended (st : PoolState) (ip : Nat) :
    ((st.entries.find? (fun e => e.ip == ip)) = none → Release st ip = st) ∧
    (∀ e, st.entries.find? (fun e' => e'.ip == ip) = some e →
      ((∀ e' ∈ (Release st ip).entries, e'.ip = ip → e'.expiresAt = 0) ∧
       lookupUsed (Release st ip).used e.pool = lookupUsed st.used e.pool - 1)) ∧
    ((Release (Release st ip) ip).entries = (Release st ip).entries) ∧
    (∀ e, st.entries.find? (fun e' => e'.ip == ip) = some e →
      lookupUsed (Release (Release st ip) ip).used e.pool
        = lookupUsed st.used e.pool - 2) := by
  set f : IPPoolEntry → IPPoolEntry :=
    fun e' => if e'.ip == ip then { e' with expiresAt := 0 } else e' with hf
  have hfip : ∀ e', (f e').ip = e'.ip := by
    intro e'
    rw [hf]
    by_cases h : (e'.ip == ip) = true <;> simp [h]
  have hpred : ((fun e => e.ip == ip) ∘ f) = (fun e => e.ip == ip) := by
    funext e'
    simp only [Function.comp_apply, hfip]
  have hmapfind : ∀ (l : List IPPoolEntry),
      (l.map f).find? (fun e => e.ip == ip)
        = (l.find? (fun e => e.ip == ip)).map f := by
    intro l
    rw [List.find?_map, hpred]
  have hmapidem : ∀ (l : List IPPoolEntry), (l.map f).map f = l.map f := by
    intro l
    rw [List.map_map]
    apply List.map_congr_left
    intro e' _
    simp only [Function.comp_apply, hf]
    by_cases h : (e'.ip == ip) = true <;> simp [h]
  refine ⟨?_, ?_, ?_, ?_⟩
  · intro hnone
    unfold Release
    rw [hnone]
  · intro e hfound
    have h1 : Release st ip = ⟨st.entries.map f, hIncrBy st.used e.pool (-1)⟩ := by
      unfold Release
      rw [hfound]
    constructor
    · intro e' hmem hip
      rw [h1] at hmem
      rcases List.mem_map.mp hmem with ⟨x, hx, hxe⟩
      by_cases h : (x.ip == ip) = true
      · rw [← hxe, hf]
        simp [h]
      · exfalso
        apply h
        rw [← hxe] at hip
        rw [hfip] at hip
        simpa using hip
    · rw [h1]
      show lookupUsed (hIncrBy st.used e.pool (-1)) e.pool = lookupUsed st.used e.pool - 1
      rw [lookupUsed_hIncrBy]
      omega
  · cases hfind : st.entries.find? (fun e => e.ip == ip) with
    | none =>
      have hrel : Release st ip = st := by
        unfold Release
        rw [hfind]
      rw [hrel, hrel]
    | some e =>
      have h1 : Release st ip = ⟨st.entries.map f, hIncrBy st.used e.pool (-1)⟩ := by
        unfold Release
        rw [hfind]
      have h2 : ((st.entries.map f).find? fun e' => e'.ip == ip) = some (f e) := by
        rw [hmapfind, hfind]
        rfl
      have houter : Release (Release st ip) ip
          = ⟨(st.entries.map f).map f,
             hIncrBy (hIncrBy st.used e.pool (-1)) (f e).pool (-1)⟩ := by
        rw [h1]
        unfold Release
        rw [show ((⟨st.entries.map f, hIncrBy st.used e.pool (-1)⟩ : PoolState).entries.find?
            fun e' => e'.ip == ip) = some (f e) from h2]
      rw [houter, h1]
      exact hmapidem st.entries
  · intro e hfound
    have heq : (e.ip == ip) = true := by
      have := List.find?_some hfound
      simpa using this
    have hfe : f e = { e with expiresAt := 0 } := by
      rw [hf]
      simp [heq]
    have h1 : Release st ip = ⟨st.entries.map f, hIncrBy st.used e.pool (-1)⟩ := by
      unfold Release
      rw [hfound]
    have h2 : ((st.entries.map f).find? fun e' => e'.ip == ip) = some (f e) := by
      rw [hmapfind, hfound]
      rfl
    have houter : Release (Release st ip) ip
        = ⟨(st.entries.map f).map f,
           hIncrBy (hIncrBy st.used e.pool (-1)) (f e).pool (-1)⟩ := by
      rw [h1]
      unfold Release
      rw [show ((⟨st.entries.map f, hIncrBy st.used e.pool (-1)⟩ : PoolState).entries.find?
          fun e' => e'.ip == ip) = some (f e) from h2]
    rw [houter]
    show lookupUsed (hIncrBy (hIncrBy st.used e.pool (-1)) (f e).pool (-1)) e.pool
        = lookupUsed st.used e.pool - 2
    have hpool : (f e).pool = e.pool := by
      rw [hfe]
    rw [hpool, lookupUsed_hIncrBy, lookupUsed_hIncrBy]
    omega

/-- Witness for C7: a one-entry pool with `used = 1`; the first release
zeroes the lease and drops the counter to 0, the second leaves the entry
but drops the counter to −1. -/
theorem c7_release_amended_witness :
    (([(⟨167772170, "main", 1000⟩ : IPPoolEntry)].find?
        (fun e' => e'.ip == 167772170) = some ⟨167772170, "main", 1000⟩) ∧
      lookupUsed (Release (Release ⟨[⟨167772170, "main", 1000⟩], [("main", 1)]⟩ 167772170)
          167772170).used "main"
        = lookupUsed [("main", (1 : Int))] "main" - 2) := by
  refine ⟨by decide, ?_⟩
  exact (c7_release_amended ⟨[⟨167772170, "main", 1000⟩], [("main", 1)]⟩ 167772170).2.2.2
    ⟨167772170, "main", 1000⟩ (by decide)

/-- Counterexample for C7 as stated: releasing the same IP twice is not
the same as releasing it once — the second call decrements the per-pool
`used` counter again. -/
theorem c7_release_counterexample :
    Release (Release ⟨[⟨167772170, "main", 1000⟩], [("main", 1)]⟩ 167772170) 167772170
      ≠ Release ⟨[⟨167772170, "main", 1000⟩], [("main", 1)]⟩ 167772170 := by
  decide

/-! ### Disconnect-Request packet (C8) -/

/-- C8: for every 16-byte hash function (as `crypto/md5` is), a non-empty
shared secret and a packet shorter than 2^16 bytes: the built packet is
the 4-byte header, the digest, then the attribute region (the attributes
in the fixed order User-Name, Acct-Session-Id, Framed-IP-Address,
NAS-IP-Address, NAS-Port, NAS-Identifier, each emitted only when
present); the two header length bytes are the big-endian total length;
and the digest hashes the 4-byte header, 16 zero bytes in place of the
authenticator slot, the attributes, and the shared secret. -/
theorem c8_disconnect_packet (md5 : List Nat → List Nat)
    (h16 : ∀ x, (md5 x).length = 16)
    (userName sid : List Nat) (ip : Option (List Nat)) (nas : NasSpec)
    (secret : List Nat) (hsec : secret ≠ [])
    (hlen : 20 + (disconnectAttributes userName sid ip nas).length < 65536) :
    buildDisconnectRequest md5 userName sid ip nas secret
      = [40, 1, (20 + (disconnectAttributes userName sid ip nas).length) / 256,
          (20 + (disconnectAttributes userName sid ip nas).length) % 256]
        ++ md5 ([40, 1, (20 + (disconnectAttributes userName sid ip nas).length) / 256,
              (20 + (disconnectAttributes userName sid ip nas).length) % 256]
            ++ List.replicate 16 0
            ++ disconnectAttributes userName sid ip nas ++ secret)
        ++ disconnectAttributes userName sid ip nas ∧
    (buildDisconnectRequest md5 userName sid ip nas secret).length
      = 20 + (disconnectAttributes userName sid ip nas).length := by
  set A := disconnectAttributes userName sid ip nas with hA
  have hlen0 : (40 :: 1 :: 0 :: 0 :: (List.replicate 16 0 ++ A)).length = 20 + A.length := by
    simp only [List.length_cons, List.length_append, List.length_replicate]
    omega
  have hset : ∀ hi lo : Nat,
      ((40 :: 1 :: 0 :: 0 :: (List.replicate 16 0 ++ A)).set 2 hi).set 3 lo
        = 40 :: 1 :: hi :: lo :: (List.replicate 16 0 ++ A) := by
    intro hi lo
    rfl
  have hmod : (40 :: 1 :: 0 :: 0 :: (List.replicate 16 0 ++ A)).length % 65536
      = 20 + A.length := by
    rw [hlen0]
    exact Nat.mod_eq_of_lt hlen
  have hstep : buildDisconnectRequest md5 userName sid ip nas secret
      = writeDigest (40 :: 1 :: ((20 + A.length) / 256) :: ((20 + A.length) % 256)
            :: (List.replicate 16 0 ++ A))
          (requestAuthenticator md5
            (40 :: 1 :: ((20 + A.length) / 256) :: ((20 + A.length) % 256)
              :: (List.replicate 16 0 ++ A)) secret) := by
    unfold buildDisconnectRequest
    rw [if_pos hsec, ← hA, hmod, hlen0, hset]
  have htake : (40 :: 1 :: ((20 + A.length) / 256) :: ((20 + A.length) % 256)
      :: (List.replicate 16 0 ++ A)).take 4
      = [40, 1, (20 + A.length) / 256, (20 + A.length) % 256] := rfl
  have hdrop : (40 :: 1 :: ((20 + A.length) / 256) :: ((20 + A.length) % 256)
      :: (List.replicate 16 0 ++ A)).drop 20 = A := rfl
  have hauth : requestAuthenticator md5
      (40 :: 1 :: ((20 + A.length) / 256) :: ((20 + A.length) % 256)
        :: (List.replicate 16 0 ++ A)) secret
      = md5 ([40, 1, (20 + A.length) / 256, (20 + A.length) % 256]
          ++ List.replicate 16 0 ++ A ++ secret) := by
    unfold requestAuthenticator
    rw [htake, hdrop]
  have hdig := h16 ([40, 1, (20 + A.length) / 256, (20 + A.length) % 256]
      ++ List.replicate 16 0 ++ A ++ secret)
  have hwrite : writeDigest (40 :: 1 :: ((20 + A.length) / 256) :: ((20 + A.length) % 256)
        :: (List.replicate 16 0 ++ A))
      (md5 ([40, 1, (20 + A.length) / 256, (20 + A.length) % 256]
          ++ List.replicate 16 0 ++ A ++ secret))
      = [40, 1, (20 + A.length) / 256, (20 + A.length) % 256]
        ++ md5 ([40, 1, (20 + A.length) / 256, (20 + A.length) % 256]
            ++ List.replicate 16 0 ++ A ++ secret) ++ A := by
    unfold writeDigest
    rw [hdig, htake]
    have : (4 : Nat) + 16 = 20 := rfl
    rw [this, hdrop, List.append_assoc]
  have hmain : buildDisconnectRequest md5 userName sid ip nas secret
      = [40, 1, (20 + A.length) / 256, (20 + A.length) % 256]
        ++ md5 ([40, 1, (20 + A.length) / 256, (20 + A.length) % 256]
            ++ List.replicate 16 0 ++ A ++ secret) ++ A := by
    rw [hstep, hauth, hwrite]
  refine ⟨by rw [hmain], ?_⟩
  rw [hmain]
  simp only [List.length_append, List.length_cons, List.length_nil, hdig]

/-- Witness for C8: a constant 16-byte hash, `User-Name = [65]`, empty
session id, no IPs and a one-byte secret. -/
theorem c8_disconnect_packet_witness :
    ((∀ x : List Nat, ((fun _ : List Nat => List.replicate 16 (7 : Nat)) x).length = 16) ∧
      ([9] : List Nat) ≠ [] ∧
      20 + (disconnectAttributes [65] [] none ⟨none, none, none⟩).length < 65536) ∧
    (buildDisconnectRequest (fun _ => List.replicate 16 (7 : Nat)) [65] [] none
        ⟨none, none, none⟩ [9]
      = [40, 1, (20 + (disconnectAttributes [65] [] none ⟨none, none, none⟩).length) / 256,
          (20 + (disconnectAttributes [65] [] none ⟨none, none, none⟩).length) % 256]
        ++ (fun _ : List Nat => List.replicate 16 (7 : Nat))
            ([40, 1, (20 + (disconnectAttributes [65] [] none ⟨none, none, none⟩).length) / 256,
              (20 + (disconnectAttributes [65] [] none ⟨none, none, none⟩).length) % 256]
            ++ List.replicate 16 0
            ++ disconnectAttributes [65] [] none ⟨none, none, none⟩ ++ [9])
        ++ disconnectAttributes [65] [] none ⟨none, none, none⟩ ∧
      (buildDisconnectRequest (fun _ => List.replicate 16 (7 : Nat)) [65] [] none
          ⟨none, none, none⟩ [9]).length
        = 20 + (disconnectAttributes [65] [] none ⟨none, none, none⟩).length) :=
  ⟨⟨fun _ => by simp, by decide, by decide⟩,
    c8_disconnect_packet (fun _ => List.replicate 16 (7 : Nat)) (fun _ => by simp)
      [65] [] none ⟨none, none, none⟩ [9] (by decide) (by decide)⟩

/-! ### Monthly subscription idempotency (C9) -/

/-- C9 (amended): a matching debit already recorded for the period makes
the charge a skipped success with no new debit; and when the processor
runs at times inside the billing period, a first run that debits a
positive amount makes any re-run a skipped success with no new debit —
hence at most one positive debit per account and period under in-period
processing. -/
theorem c9_subscription_idempotent (cfg : SubConfig) (acct : SubAccount)
    (ledger : List FinTx) (ps pe now1 now2 : Int)
    (hn1 : ps ≤ now1) (hn2 : now1 ≤ pe) :
    (isAlreadyCharged ledger acct.contractId ps pe = true →
      processAccountCharge cfg acct ledger ps pe now1
        = ⟨"success", 0, false, ledger⟩) ∧
    ((processAccountCharge cfg acct ledger ps pe now1).debited = true →
      0 < (processAccountCharge cfg acct ledger ps pe now1).amount →
      processAccountCharge cfg acct (processAccountCharge cfg acct ledger ps pe now1).ledger
          ps pe now2
        = ⟨"success", 0, false,
            (processAccountCharge cfg acct ledger ps pe now1).ledger⟩) := by
  have hskip : ∀ lg : List FinTx, isAlreadyCharged lg acct.contractId ps pe = true →
      ∀ t : Int, processAccountCharge cfg acct lg ps pe t = ⟨"success", 0, false, lg⟩ := by
    intro lg halready t
    by_cases hfee : getMonthlyFee cfg acct.planData ≤ 0
    · unfold processAccountCharge
      rw [if_pos hfee]
    · unfold processAccountCharge
      rw [if_neg hfee, if_pos halready]
  refine ⟨fun h => hskip ledger h now1, ?_⟩
  intro hdeb hamt
  by_cases hfee : getMonthlyFee cfg acct.planData ≤ 0
  · exfalso
    have hr : processAccountCharge cfg acct ledger ps pe now1
        = ⟨"success", 0, false, ledger⟩ := by
      unfold processAccountCharge
      rw [if_pos hfee]
    rw [hr] at hdeb
    exact Bool.false_ne_true hdeb
  · by_cases halready : isAlreadyCharged ledger acct.contractId ps pe = true
    · exfalso
      have hr := hskip ledger halready now1
      rw [hr] at hdeb
      exact Bool.false_ne_true hdeb
    · by_cases hbal : acct.balance + acct.credit
          < (if cfg.enableProration then
              calculateProratedAmount (getMonthlyFee cfg acct.planData) acct.createdAt ps pe
            else getMonthlyFee cfg acct.planData)
      · exfalso
        have hr : processAccountCharge cfg acct ledger ps pe now1
            = ⟨"failed",
                (if cfg.enableProration then
                  calculateProratedAmount (getMonthlyFee cfg acct.planData) acct.createdAt ps pe
                else getMonthlyFee cfg acct.planData), false, ledger⟩ := by
          unfold processAccountCharge
          rw [if_neg hfee, if_neg halready, if_pos hbal]
        rw [hr] at hdeb
        exact Bool.false_ne_true hdeb
      · have hr1 : processAccountCharge cfg acct ledger ps pe now1
            = ⟨"success",
                (if cfg.enableProration then
                  calculateProratedAmount (getMonthlyFee cfg acct.planData) acct.createdAt ps pe
                else getMonthlyFee cfg acct.planData), true,
                ledger ++ [⟨acct.contractId, periodComment ps pe, now1,
                  -(if cfg.enableProration then
                      calculateProratedAmount (getMonthlyFee cfg acct.planData)
                        acct.createdAt ps pe
                    else getMonthlyFee cfg acct.planData)⟩]⟩ := by
          unfold processAccountCharge
          rw [if_neg hfee, if_neg halready, if_neg hbal]
        have hFApos : 0 < (if cfg.enableProration then
            calculateProratedAmount (getMonthlyFee cfg acct.planData) acct.createdAt ps pe
          else getMonthlyFee cfg acct.planData) := by
          rw [hr1] at hamt
          exact hamt
        have halready2 : isAlreadyCharged
            (ledger ++ [⟨acct.contractId, periodComment ps pe, now1,
              -(if cfg.enableProration then
                  calculateProratedAmount (getMonthlyFee cfg acct.planData) acct.createdAt ps pe
                else getMonthlyFee cfg acct.planData)⟩])
            acct.contractId ps pe = true := by
          unfold isAlreadyCharged
          rw [List.any_eq_true]
          refine ⟨⟨acct.contractId, periodComment ps pe, now1,
            -(if cfg.enableProration then
                calculateProratedAmount (getMonthlyFee cfg acct.planData) acct.createdAt ps pe
              else getMonthlyFee cfg acct.planData)⟩,
            List.mem_append_right _ (List.mem_cons_self _ _), ?_⟩
          simp only [Bool.and_eq_true]
          refine ⟨⟨⟨⟨?_, ?_⟩, ?_⟩, ?_⟩, ?_⟩
          · exact beq_self_eq_true acct.contractId
          · rw [List.isPrefixOf_iff_prefix]
            show monthlyFeeComment <+: periodComment ps pe
            unfold periodComment
            exact List.prefix_append _ _
          · exact decide_eq_true hn1
          · exact decide_eq_true hn2
          · refine decide_eq_true ?_
            simpa using hFApos
        rw [hr1]
        exact hskip _ halready2 now2

/-- Witness for C9 (amended): fee 31, balance 100, empty ledger,
period `[0, 100]`, both runs at times 5 and 6 inside the period. -/
theorem c9_subscription_idempotent_witness :
    (((0 : Int) ≤ 5) ∧ ((5 : Int) ≤ 100)) ∧
    ((isAlreadyCharged [] (SubAccount.mk 1 7 [] 0 100 0).contractId 0 100 = true →
      processAccountCharge ⟨31, false⟩ ⟨1, 7, [], 0, 100, 0⟩ [] 0 100 5
        = ⟨"success", 0, false, []⟩) ∧
     ((processAccountCharge ⟨31, false⟩ ⟨1, 7, [], 0, 100, 0⟩ [] 0 100 5).debited = true →
      0 < (processAccountCharge ⟨31, false⟩ ⟨1, 7, [], 0, 100, 0⟩ [] 0 100 5).amount →
      processAccountCharge ⟨31, false⟩ ⟨1, 7, [], 0, 100, 0⟩
          (processAccountCharge ⟨31, false⟩ ⟨1, 7, [], 0, 100, 0⟩ [] 0 100 5).ledger 0 100 6
        = ⟨"success", 0, false,
            (processAccountCharge ⟨31, false⟩ ⟨1, 7, [], 0, 100, 0⟩ [] 0 100 5).ledger⟩)) :=
  ⟨⟨by norm_num, by norm_num⟩,
    c9_subscription_idempotent ⟨31, false⟩ ⟨1, 7, [], 0, 100, 0⟩ [] 0 100 5 6
      (by norm_num) (by norm_num)⟩

/-- Counterexample for C9 as stated: processing the January-style period
`[0, 100]` at a time 200 after the period has ended debits successfully,
and a re-run debits again — the recorded debit's timestamp lies outside
the period, so the idempotency query does not see it; two successful
debits are performed for the same account and period. -/
theorem c9_subscription_counterexample :
    ((processAccountCharge ⟨31, false⟩ ⟨1, 7, [], 0, 100, 0⟩ [] 0 100 200).debited = true ∧
     (processAccountCharge ⟨31, false⟩ ⟨1, 7, [], 0, 100, 0⟩ [] 0 100 200).status
        = "success") ∧
    ((processAccountCharge ⟨31, false⟩ ⟨1, 7, [], 0, 100, 0⟩
        (processAccountCharge ⟨31, false⟩ ⟨1, 7, [], 0, 100, 0⟩ [] 0 100 200).ledger
        0 100 200).debited = true ∧
     (processAccountCharge ⟨31, false⟩ ⟨1, 7, [], 0, 100, 0⟩
        (processAccountCharge ⟨31, false⟩ ⟨1, 7, [], 0, 100, 0⟩ [] 0 100 200).ledger
        0 100 200).status = "success") := by
  have hfee : getMonthlyFee ⟨31, false⟩ [] = (31 : ℚ) := rfl
  have hfee' : ¬ getMonthlyFee ⟨31, false⟩ [] ≤ (0 : ℚ) := by
    rw [hfee]
    norm_num
  have hdebit : ∀ lg : List FinTx,
      isAlreadyCharged lg (7 : Nat) (0 : Int) (100 : Int) = false →
      processAccountCharge ⟨31, false⟩ ⟨1, 7, [], 0, 100, 0⟩ lg 0 100 200
        = ⟨"success", 31, true, lg ++ [⟨7, periodComment 0 100, 200, -31⟩]⟩ := by
    intro lg hno
    unfold processAccountCharge
    rw [if_neg hfee']
    rw [if_neg (by rw [hno]; exact Bool.false_ne_true)]
    have hpror : (if (⟨31, false⟩ : SubConfig).enableProration then
        calculateProratedAmount (getMonthlyFee ⟨31, false⟩
          (SubAccount.mk 1 7 [] 0 100 0).planData)
          (SubAccount.mk 1 7 [] 0 100 0).createdAt 0 100
      else getMonthlyFee ⟨31, false⟩ (SubAccount.mk 1 7 [] 0 100 0).planData) = (31 : ℚ) := by
      show (if false = true then _ else getMonthlyFee ⟨31, false⟩ []) = (31 : ℚ)
      rw [if_neg (by exact Bool.false_ne_true), hfee]
    rw [hpror]
    rw [if_neg (by norm_num)]
  have h0 : isAlreadyCharged [] (7 : Nat) (0 : Int) (100 : Int) = false := rfl
  have hr1 := hdebit [] h0
  have h1 : isAlreadyCharged [(⟨7, periodComment 0 100, 200, -31⟩ : FinTx)]
      (7 : Nat) (0 : Int) (100 : Int) = false := by
    unfold isAlreadyCharged
    simp only [List.any_cons, List.any_nil, Bool.or_false]
    have : decide ((200 : Int) ≤ (100 : Int)) = false := by decide
    simp [this]
  have hr2 := hdebit [(⟨7, periodComment 0 100, 200, -31⟩ : FinTx)] h1
  refine ⟨?_, ?_⟩
  · rw [hr1]
    exact ⟨rfl, rfl⟩
  · have hproj : (processAccountCharge ⟨31, false⟩ ⟨1, 7, [], 0, 100, 0⟩ [] 0 100 200).ledger
        = [(⟨7, periodComment 0 100, 200, -31⟩ : FinTx)] := by
      rw [hr1]
      rfl
    rw [hproj, hr2]
    exact ⟨rfl, rfl⟩

end ISPBilling
